import Mathlib

/-!
Shallow embedding of the npmjs.dev dual execution-engine subsystem:
the QuickJS-based interpreter engine (`JSExecutorEngine`), the iframe-based
isolated-realm engine (`BrowserExecutorEngine`), the shared module-specifier
resolver and import scanner, and the localStorage-backed bounded code cache.

Conventions:
- JavaScript runtime values that cross the host/guest boundary (after
  `vm.dump`) are modelled by `JSValue`; a value on which `JSON.stringify`
  throws (a cyclic structure) is modelled by the `cyclic` constructor.
- Fallible host code (a JS `throw`) is modelled with `Except`/`Option`.
- Machine integers do not occur on the modelled paths; counters are `Nat`.
-/

namespace NpmjsDev

/-- A JavaScript runtime value as seen by the host after `vm.dump`.
`cyclic` stands for a value of typeof "object" whose JSON serialization
throws (e.g. a structure containing a reference cycle). -/
inductive JSValue where
  | undef : JSValue
  | null : JSValue
  | bool (b : Bool) : JSValue
  | num (n : Int) : JSValue
  | str (s : String) : JSValue
  | obj (fields : List (String × JSValue)) : JSValue
  | cyclic : JSValue

/-- JS `typeof v === 'object'` (true for objects and for `null`). -/
def jsTypeofIsObject : JSValue → Bool
  | .null => true
  | .obj _ => true
  | .cyclic => true
  | _ => false

/-- JS `String(v)` on the values we model. -/
def jsString : JSValue → String
  | .undef => "undefined"
  | .null => "null"
  | .bool b => if b then "true" else "false"
  | .num n => toString n
  | .str s => s
  | .obj _ => "[object Object]"
  | .cyclic => "[object Object]"

/-- JSON string-literal rendering used by `JSON.stringify` (escaping the
quote and the backslash; enough for the values we model). -/
def jsonQuote (s : String) : String :=
  let esc := s.data.foldr (fun c acc =>
    if c = Char.ofNat 34 ∨ c = Char.ofNat 92 then Char.ofNat 92 :: c :: acc
    else c :: acc) []
  String.mk (Char.ofNat 34 :: esc ++ [Char.ofNat 34])

mutual

/-- `JSON.stringify(v, null, 2)` at indentation depth `d`; `none` models a
thrown `TypeError` (reached exactly on a cyclic structure). -/
def jsonStringifyPretty (d : Nat) : JSValue → Option String
  | .undef => none
  | .null => some "null"
  | .bool b => some (if b then "true" else "false")
  | .num n => some (toString n)
  | .str s => some (jsonQuote s)
  | .obj fields =>
    match jsonFieldsPretty (d + 1) fields with
    | none => none
    | some [] => some "{}"
    | some parts =>
      let pad := String.mk (List.replicate ((d + 1) * 2) ' ')
      let close := String.mk (List.replicate (d * 2) ' ')
      some ("\x7b\n" ++ pad ++ String.intercalate (",\n" ++ pad) parts ++ "\n" ++ close ++ "\x7d")
  | .cyclic => none

/-- Renders the fields of an object; `none` propagates a serialization throw. -/
def jsonFieldsPretty (d : Nat) : List (String × JSValue) → Option (List String)
  | [] => some []
  | (k, v) :: rest =>
    match jsonStringifyPretty d v with
    | none => none
    | some rv =>
      match jsonFieldsPretty d rest with
      | none => none
      | some rs => some ((jsonQuote k ++ ": " ++ rv) :: rs)

end

/-- One captured console line: `{type, content, timestamp}`. -/
structure LogEntry where
  type : String
  content : String
  timestamp : Nat
deriving DecidableEq, Repr

/-- `ExecutionResult {logs, returnValue?, error?}`; `none` models an absent
(or `undefined`/`null`) field. -/
structure ExecutionResult where
  logs : List LogEntry
  returnValue : Option String := none
  error : Option String := none
deriving DecidableEq, Repr

/-! ## Character-class regex combinators

All repetition operators in the regexes of this code base apply to
single-character classes, so a greedy, backtracking matcher can be built
from two structural combinators plus ordered alternation (`<|>`). -/

/-- Greedy `cls*`: consume the longest run of `p`-characters, backtracking
one character at a time if the continuation `k` fails. -/
def greedyCls {α : Type} (p : Char → Bool) : List Char → (List Char → Option α) → Option α
  | c :: rest, k => if p c then (greedyCls p rest k) <|> k (c :: rest) else k (c :: rest)
  | [], k => k []

/-- Greedy `cls+`: at least one `p`-character, then as `greedyCls`. -/
def plusCls {α : Type} (p : Char → Bool) : List Char → (List Char → Option α) → Option α
  | c :: rest, k => if p c then greedyCls p rest k else none
  | [], _ => none

/-- A single literal character. -/
def charTok {α : Type} (c : Char) : List Char → (List Char → Option α) → Option α
  | d :: rest, k => if d = c then k rest else none
  | [], _ => none

/-- Greedy `c?`: try consuming the literal `c`, else match empty. -/
def optChar {α : Type} (c : Char) (l : List Char) (k : List Char → Option α) : Option α :=
  (charTok c l k) <|> k l

/-- JS `\w` character class: `[A-Za-z0-9_]`. -/
def wordChar (c : Char) : Bool :=
  (c ≥ 'a' ∧ c ≤ 'z') ∨ (c ≥ 'A' ∧ c ≤ 'Z') ∨ (c ≥ '0' ∧ c ≤ '9') ∨ c = '_'

/-- The `[\w-]` class of the resolver regex. -/
def wordHyphen (c : Char) : Bool := wordChar c ∨ c = '-'

/-- The `[\w$]` class of the scanner regex. -/
def wordDollar (c : Char) : Bool := wordChar c ∨ c = '$'

/-- JS `\s` on the ASCII range: space, tab, newline, carriage return,
vertical tab, form feed. -/
def wsChar (c : Char) : Bool :=
  c = ' ' ∨ c = Char.ofNat 9 ∨ c = Char.ofNat 10 ∨ c = Char.ofNat 13 ∨
  c = Char.ofNat 11 ∨ c = Char.ofNat 12

/-! ## Specifier resolver (`JSExecutorEngine.resolveModuleUrl`) -/

/-- `String.prototype.startsWith`, via the underlying character list. -/
def jsStartsWith (s p : String) : Bool := p.data.isPrefixOf s.data

/-- The regex `/^\/(@?[\w-]+\/)?[\w-]+/` on a character list: a slash,
an optional `@?[\w-]+\/` group, then `[\w-]+`. -/
def slashPackageCore (l : List Char) : Option Unit :=
  match l with
  | c0 :: t =>
    if c0 = '/' then
      (optChar '@' t (fun t1 => plusCls wordHyphen t1 (fun t2 =>
         charTok '/' t2 (fun t3 => plusCls wordHyphen t3 (fun _ => some ())))))
      <|> plusCls wordHyphen t (fun _ => (some () : Option Unit))
    else none
  | [] => none

/-- `moduleName.match(/^\/(@?[\w-]+\/)?[\w-]+/)` as a boolean test (the
`^` anchor; no end anchor, so this is a prefix match). -/
def slashPackageTest (s : String) : Bool :=
  (slashPackageCore s.data).isSome

/-- `JSExecutorEngine.resolveModuleUrl`: resolve all module requests to
`https://esm.sh`. -/
def resolveModuleUrl (moduleName : String) : String :=
  if jsStartsWith moduleName "http://" ∨ jsStartsWith moduleName "https://" then
    moduleName
  else if slashPackageTest moduleName then
    "https://esm.sh" ++ moduleName
  else
    "https://esm.sh/" ++ moduleName

/-! ## Import scanner (`parseModuleDeps`, src/engine/utils.ts)

The scanner repeatedly applies the regex
`(?:import|export)\s+(?:(?:[\w$]+\s*,\s*)?(?:\{[^}]*\}|\*(?:\s+as\s+\w+)?|[\w$]+)\s+from\s+|(?:\{[^}]*\}|\*(?:\s+as\s+\w+)?)\s+from\s+)?['"\x60]([^'"\x60]+)['"\x60]`
with the `g` flag and collects capture group 1 into a `Set`.  The matcher
below mirrors the regex construct by construct, with JS backtracking
semantics (ordered alternation, greedy repetition). -/

/-- The `['"\x60]` quote class (single quote, double quote, backtick). -/
def isQuoteChar (c : Char) : Bool :=
  c = Char.ofNat 39 ∨ c = Char.ofNat 34 ∨ c = Char.ofNat 96

/-- Greedy capturing `cls*`: like `greedyCls` but records the consumed
characters (in reverse) for the capture group. -/
def capGreedy {α : Type} (p : Char → Bool) :
    List Char → List Char → (List Char → List Char → Option α) → Option α
  | c :: rest, acc, k =>
    if p c then (capGreedy p rest (c :: acc) k) <|> k acc (c :: rest) else k acc (c :: rest)
  | [], acc, k => k acc []

/-- `['"\x60]([^'"\x60]+)['"\x60]`: a quoted specifier; returns the capture
(group 1) and the rest of the input after the closing quote. -/
def matchQuotedCap (l : List Char) : Option (List Char × List Char) :=
  match l with
  | q :: rest =>
    if isQuoteChar q then
      match rest with
      | c :: rest2 =>
        if isQuoteChar c then none
        else
          capGreedy (fun d => ¬ isQuoteChar d) rest2 [c] (fun acc l2 =>
            match l2 with
            | q2 :: rest3 => if isQuoteChar q2 then some (acc.reverse, rest3) else none
            | [] => none)
      | [] => none
    else none
  | [] => none

/-- `\s+from\s+` followed by the quoted capture. -/
def matchFromQuoted (l : List Char) : Option (List Char × List Char) :=
  plusCls wsChar l (fun l1 =>
    match l1 with
    | 'f' :: 'r' :: 'o' :: 'm' :: l2 => plusCls wsChar l2 (fun l3 => matchQuotedCap l3)
    | _ => none)

/-- `\{[^}]*\}` — a (possibly multi-line) brace group. -/
def matchBraces {α : Type} (l : List Char) (k : List Char → Option α) : Option α :=
  match l with
  | c :: l1 =>
    if c = '{' then
      greedyCls (fun d => ¬ d = '}') l1 (fun l2 =>
        match l2 with
        | d :: l3 => if d = '}' then k l3 else none
        | [] => none)
    else none
  | [] => none

/-- `\*(?:\s+as\s+\w+)?` — a namespace binding with optional alias. -/
def matchStarAs {α : Type} (l : List Char) (k : List Char → Option α) : Option α :=
  match l with
  | c :: l1 =>
    if c = '*' then
      (plusCls wsChar l1 (fun l2 =>
        match l2 with
        | 'a' :: 's' :: l3 => plusCls wsChar l3 (fun l4 => plusCls wordChar l4 k)
        | _ => none)) <|> k l1
    else none
  | [] => none

/-- `(?:[\w$]+\s*,\s*)?` — an optional default binding before a comma. -/
def matchCommaLead {α : Type} (l : List Char) (k : List Char → Option α) : Option α :=
  (plusCls wordDollar l (fun l1 => greedyCls wsChar l1 (fun l2 =>
    match l2 with
    | c :: l3 => if c = ',' then greedyCls wsChar l3 k else none
    | [] => none))) <|> k l

/-- `(?:\{[^}]*\}|\*(?:\s+as\s+\w+)?|[\w$]+)` — the binding alternation. -/
def matchBinding {α : Type} (l : List Char) (k : List Char → Option α) : Option α :=
  matchBraces l k <|> matchStarAs l k <|> plusCls wordDollar l k

/-- First branch of the optional group:
`(?:[\w$]+\s*,\s*)?(?:\{[^}]*\}|\*(?:\s+as\s+\w+)?|[\w$]+)\s+from\s+` + capture. -/
def matchAltA (l : List Char) : Option (List Char × List Char) :=
  matchCommaLead l (fun l1 => matchBinding l1 (fun l2 => matchFromQuoted l2))

/-- Second branch: `(?:\{[^}]*\}|\*(?:\s+as\s+\w+)?)\s+from\s+` + capture. -/
def matchAltB (l : List Char) : Option (List Char × List Char) :=
  matchBraces l (fun l1 => matchFromQuoted l1) <|> matchStarAs l (fun l1 => matchFromQuoted l1)

/-- The whole tail after `(?:import|export)\s+`: the optional
`(?:A|B)?` group (tried in order, then empty) followed by the quoted capture. -/
def matchImportTail (l : List Char) : Option (List Char × List Char) :=
  matchAltA l <|> matchAltB l <|> matchQuotedCap l

/-- One attempted match of the whole regex at the current position. -/
def matchModuleStmt (l : List Char) : Option (List Char × List Char) :=
  match l with
  | 'i' :: 'm' :: 'p' :: 'o' :: 'r' :: 't' :: l1 => plusCls wsChar l1 (fun l2 => matchImportTail l2)
  | 'e' :: 'x' :: 'p' :: 'o' :: 'r' :: 't' :: l1 => plusCls wsChar l1 (fun l2 => matchImportTail l2)
  | _ => none

/-- `regex.exec` loop with the `g` flag: leftmost match, then continue after
the end of the match.  Every successful match consumes at least seven
characters, so `fuel = length + 1` never runs out. -/
def scanDeps : Nat → List Char → List String
  | 0, _ => []
  | _ + 1, [] => []
  | fuel + 1, c :: rest =>
    match matchModuleStmt (c :: rest) with
    | some (cap, remaining) => String.mk cap :: scanDeps fuel remaining
    | none => scanDeps fuel rest

/-- JS `Set` insertion / `Array.from`: keep first occurrences, in order. -/
def dedupFirstSeen : List String → List String → List String
  | [], _ => []
  | s :: rest, seen =>
    if s ∈ seen then dedupFirstSeen rest seen else s :: dedupFirstSeen rest (s :: seen)

/-- `parseModuleDeps` (src/engine/utils.ts): all capture-group-1 values of
the global regex over the code, deduplicated in first-seen order. -/
def parseModuleDeps (code : String) : List String :=
  dedupFirstSeen (scanDeps (code.data.length + 1) code.data) []

/-! ## Interpreter engine (`JSExecutorEngine`, quickjs-executor) -/

/-- JS truthiness of a value (used by the `if (errorData.name && ...)` chain). -/
def jsTruthy : JSValue → Bool
  | .undef => false
  | .null => false
  | .bool b => b
  | .num n => ¬ n = 0
  | .str s => ¬ s = ""
  | .obj _ => true
  | .cyclic => true

/-- Property read `v[k]` on an object, `undefined` when missing. -/
def lookupField (fields : List (String × JSValue)) (k : String) : JSValue :=
  ((fields.find? (fun p => p.1 = k)).map Prod.snd).getD JSValue.undef

/-- Message of the `TypeError` thrown by `JSON.stringify` on a cycle. -/
def circularMsg : String := "Converting circular structure to JSON"

/-- `nativeArgs.map(arg => typeof arg === 'object' ? JSON.stringify(arg, null, 2) : String(arg))`,
with a `JSON.stringify` throw (cyclic argument) propagating as `none`. -/
def serializeArgs : List JSValue → Option (List String)
  | [] => some []
  | a :: rest =>
    match (if jsTypeofIsObject a then jsonStringifyPretty 0 a else some (jsString a)) with
    | none => none
    | some s =>
      match serializeArgs rest with
      | none => none
      | some rs => some (s :: rs)

/-- Content line built by the captured console methods (the serialized
arguments joined with a space); `none` models the serialization throw. -/
def consoleContent (args : List JSValue) : Option String :=
  (serializeArgs args).map (String.intercalate " ")

/-- Modelled from the quickjs-emscripten contract (library code, not part
of this repository): `vm.dump` converts a VM handle to a native host value
best-effort — primitives pass through, objects are serialized inside the VM
and read back with `JSON.parse` (whose results are always acyclic and
re-serializable), and when the in-VM serialization throws (e.g. a cyclic
structure) the fallback is the value's string form, "[object Object]".
`dump` therefore never returns a value on which the host's `JSON.stringify`
throws. -/
def vmDump (v : JSValue) : JSValue :=
  if jsTypeofIsObject v then
    match jsonStringifyPretty 0 v with
    | some _ => v
    | none => .str (jsString v)
  else v

/-- Body of one captured `console.{log,error,warn,info}` host function
(`setupConsole`): `const nativeArgs = args.map(arg => vm.dump(arg))`, then
the serialized contents are joined and a timestamped entry is appended.
The `none` branch would model a serialization throw crashing the capture;
it is proved unreachable, since dumped values always serialize. -/
def consoleMethodBody (type : String) (args : List JSValue) (now : Nat)
    (logs : List LogEntry) : Option (List LogEntry) :=
  match consoleContent (args.map vmDump) with
  | some content => some (logs ++ [⟨type, content, now⟩])
  | none => none

/-- `formatErrorMessage`: normalize a thrown guest value to a string;
`Except.error` models a host-side throw (`JSON.stringify` on a cycle). -/
def formatErrorMessage : JSValue → Except String String
  | .str s => .ok s
  | .obj fields =>
    let nameV := lookupField fields "name"
    let msgV := lookupField fields "message"
    let lead : List String :=
      if jsTruthy nameV ∧ jsTruthy msgV then [jsString nameV ++ ": " ++ jsString msgV]
      else if jsTruthy nameV then [jsString nameV]
      else if jsTruthy msgV then [jsString msgV]
      else []
    let stackV := lookupField fields "stack"
    let errorParts := if jsTruthy stackV then lead ++ [jsString stackV] else lead
    if ¬ errorParts = [] then .ok (String.intercalate "\n" errorParts)
    else
      match jsonStringifyPretty 0 (.obj fields) with
      | some s => .ok s
      | none => .error circularMsg
  | .cyclic =>
    -- typeof "object" and not null; its properties are opaque (undefined),
    -- so the code falls through to `JSON.stringify`, which throws
    .error circularMsg
  | v => .ok (jsString v)

/-- `formatReturnValue`: `undefined` completion yields no `returnValue`;
objects are pretty-printed (a throw propagates), everything else `String()`. -/
def formatReturnValue : JSValue → Except String (Option String)
  | .undef => .ok none
  | .obj fields =>
    match jsonStringifyPretty 0 (.obj fields) with
    | some s => .ok (some s)
    | none => .error circularMsg
  | .cyclic => .error circularMsg
  | v => .ok (some (jsString v))

/-- Containment of `pat` as a contiguous substring. -/
def containsSubList (pat : List Char) : List Char → Bool
  | [] => pat.isEmpty
  | c :: rest => pat.isPrefixOf (c :: rest) || containsSubList pat rest

/-- JS `/stack overflow/i.test(msg)`: case-insensitive substring test. -/
def stackOverflowTest (msg : String) : Bool :=
  containsSubList ("stack overflow".data) (msg.data.map Char.toLower)

/-- One invocation of the interrupt handler `() => ++interruptCycles > 1024`:
given the current counter, the returned flag (`true` aborts) and counter. -/
def interruptHandlerStep (interruptCycles : Nat) : Bool × Nat :=
  (1024 < interruptCycles + 1, interruptCycles + 1)

/-- Modelled from the QuickJS contract: while a guest that never terminates
on its own runs, the runtime keeps invoking the interrupt handler; the first
`true` aborts evaluation.  Returns the total number of handler invocations
when the run is aborted within `fuel` invocations. -/
def interruptAbortCount : Nat → Nat → Option Nat
  | 0, _ => none
  | fuel + 1, interruptCycles =>
    if (interruptHandlerStep interruptCycles).1 then some (interruptHandlerStep interruptCycles).2
    else interruptAbortCount fuel (interruptHandlerStep interruptCycles).2

/-- The `InternalError: interrupted` value QuickJS throws when the
interrupt handler aborts evaluation. -/
def interruptedErrorValue : JSValue :=
  .obj [("name", .str "InternalError"), ("message", .str "interrupted")]

/-- Outcome of `vm.evalCodeAsync(code)` on the per-call fresh runtime, as
seen by the host: a completion value, a thrown guest value (both with the
console logs captured so far), or a host-side throw. -/
inductive GuestOutcome where
  | completed (value : JSValue) (logs : List LogEntry)
  | threw (errorValue : JSValue) (logs : List LogEntry)
  | hostThrow (msg : String)

/-- State of a `JSExecutorEngine` instance; the loaded WASM module is
abstracted to `Option Unit`. -/
structure JSExecutorEngine where
  quickJSModule : Option Unit
  isInitialized : Bool
deriving DecidableEq, Repr

/-- A newly constructed engine. -/
def JSExecutorEngine.new : JSExecutorEngine := ⟨none, false⟩

/-- `initialize()` (success path of `newQuickJSAsyncWASMModule`). -/
def JSExecutorEngine.initialize (e : JSExecutorEngine) : JSExecutorEngine :=
  if e.isInitialized then e else { quickJSModule := some (), isInitialized := true }

/-- `isReady()`. -/
def JSExecutorEngine.isReady (e : JSExecutorEngine) : Bool :=
  e.isInitialized && e.quickJSModule.isSome

/-- `dispose()`. -/
def JSExecutorEngine.dispose (_ : JSExecutorEngine) : JSExecutorEngine :=
  { quickJSModule := none, isInitialized := false }

/-- `execute(code)` of the quickjs-executor variant: guard, then evaluate in
a fresh runtime (`eval` abstracts `vm.evalCodeAsync` on that fresh VM),
format, normalize a stack-overflow message.  `Except.error` is a rejection
thrown to the caller; every guest failure lands in `ExecutionResult.error`. -/
def JSExecutorEngine.execute (e : JSExecutorEngine) (code : String)
    (eval : String → GuestOutcome) : Except String ExecutionResult :=
  if e.quickJSModule.isNone ∨ ¬ e.isInitialized then
    .error "Execution engine is not initialized yet"
  else
    match eval code with
    | .completed v logs =>
      match formatReturnValue v with
      | .ok rv => .ok { logs := logs, returnValue := rv, error := none }
      | .error m => .ok { logs := [], returnValue := none, error := some ("Execution error: " ++ m) }
    | .threw errV logs =>
      match formatErrorMessage errV with
      | .ok msg =>
        let normalizedError :=
          if stackOverflowTest msg then "Execution error: Maximum call stack size exceeded"
          else msg
        .ok { logs := logs, returnValue := none, error := some normalizedError }
      | .error m => .ok { logs := [], returnValue := none, error := some ("Execution error: " ++ m) }
    | .hostThrow m => .ok { logs := [], returnValue := none, error := some ("Execution error: " ++ m) }

/-! ## Isolated-realm engine (`BrowserExecutorEngine`, browser-executor)

A JS object with string keys is modelled as an insertion-ordered
association list: setting an existing key updates in place, a new key is
appended. -/

/-- `record[k]` — `none` for a missing key. -/
def recordGet (m : List (String × String)) (k : String) : Option String :=
  (m.find? (fun p => p.1 = k)).map Prod.snd

/-- `record[k] = v`. -/
def recordSet (m : List (String × String)) (k v : String) : List (String × String) :=
  if (m.find? (fun p => p.1 = k)).isSome then
    m.map (fun p => if p.1 = k then (k, v) else p)
  else m ++ [(k, v)]

/-- Truthiness of `record[k]` (`!this.packageImportMap[x]` guard). -/
def recordTruthy (m : List (String × String)) (k : String) : Bool :=
  ¬ ((recordGet m k).getD "") = ""

/-! The `parseAndAddImports` regex
`import\s+(?:(?:\{[^}]*\}|\*\s+as\s+\w+|\w+)\s+from\s+)?['"]([^'"]+)['"];?`
(only `import`, no backtick quotes, alias after `*` mandatory, optional
trailing semicolon). -/

/-- The `['"]` quote class of the browser-engine regex. -/
def isQuote2 (c : Char) : Bool := c = Char.ofNat 39 ∨ c = Char.ofNat 34

/-- `['"]([^'"]+)['"];?` for the browser-engine regex. -/
def bMatchQuoted (l : List Char) : Option (List Char × List Char) :=
  match l with
  | q :: rest =>
    if isQuote2 q then
      match rest with
      | c :: rest2 =>
        if isQuote2 c then none
        else
          capGreedy (fun d => ¬ isQuote2 d) rest2 [c] (fun acc l2 =>
            match l2 with
            | q2 :: rest3 =>
              if isQuote2 q2 then
                match rest3 with
                | ';' :: rest4 => some (acc.reverse, rest4)
                | _ => some (acc.reverse, rest3)
              else none
            | [] => none)
      | [] => none
    else none
  | [] => none

/-- `\*\s+as\s+\w+` (the alias is mandatory in this regex). -/
def bMatchStarAs {α : Type} (l : List Char) (k : List Char → Option α) : Option α :=
  match l with
  | c :: l1 =>
    if c = '*' then
      plusCls wsChar l1 (fun l2 =>
        match l2 with
        | 'a' :: 's' :: l3 => plusCls wsChar l3 (fun l4 => plusCls wordChar l4 k)
        | _ => none)
    else none
  | [] => none

/-- `(?:\{[^}]*\}|\*\s+as\s+\w+|\w+)` for the browser-engine regex. -/
def bMatchBinding {α : Type} (l : List Char) (k : List Char → Option α) : Option α :=
  matchBraces l k <|> bMatchStarAs l k <|> plusCls wordChar l k

/-- One attempted match of the browser-engine import regex. -/
def bMatchStmt (l : List Char) : Option (List Char × List Char) :=
  match l with
  | 'i' :: 'm' :: 'p' :: 'o' :: 'r' :: 't' :: l1 =>
    plusCls wsChar l1 (fun l2 =>
      (bMatchBinding l2 (fun l3 =>
        plusCls wsChar l3 (fun l4 =>
          match l4 with
          | 'f' :: 'r' :: 'o' :: 'm' :: l5 => plusCls wsChar l5 (fun l6 => bMatchQuoted l6)
          | _ => none)))
      <|> bMatchQuoted l2)
  | _ => none

/-- The `g`-flag exec loop for the browser-engine regex; the matched
specifiers in match order (with duplicates). -/
def bScanImports : Nat → List Char → List String
  | 0, _ => []
  | _ + 1, [] => []
  | fuel + 1, c :: rest =>
    match bMatchStmt (c :: rest) with
    | some (cap, remaining) => String.mk cap :: bScanImports fuel remaining
    | none => bScanImports fuel rest

/-- All specifiers matched by `parseAndAddImports`'s regex over the code. -/
def parseImports (code : String) : List String :=
  bScanImports (code.data.length + 1) code.data

/-- Loop body of `parseAndAddImports` for one matched specifier:
skip relative/URL specifiers, add the full path and its base package. -/
def processImport (m : List (String × String)) (packageName : String) :
    List (String × String) :=
  if jsStartsWith packageName "./" ∨ jsStartsWith packageName "../" ∨
      jsStartsWith packageName "http" then m
  else
    let basePackage :=
      if jsStartsWith packageName "@" then
        match packageName.splitOn "/" with
        | p0 :: p1 :: _ => p0 ++ "/" ++ p1
        | _ => packageName
      else (packageName.splitOn "/").headD packageName
    let m1 :=
      if recordTruthy m packageName then m
      else recordSet m packageName ("https://esm.sh/" ++ packageName)
    if ¬ basePackage = packageName ∧ ¬ recordTruthy m1 basePackage then
      recordSet (recordSet m1 basePackage ("https://esm.sh/" ++ basePackage))
        (basePackage ++ "/") ("https://esm.sh/" ++ basePackage ++ "/")
    else m1

/-- `parseAndAddImports(code)`: fold the loop body over the regex matches. -/
def parseAndAddImports (m : List (String × String)) (code : String) :
    List (String × String) :=
  (parseImports code).foldl processImport m

/-- The sandboxed iframe realm: the import map baked into its `srcdoc` at
creation, and the guest-visible global scope mutated by executed code. -/
structure IframeRealm where
  importMap : List (String × String)
  globals : List (String × JSValue)

/-- `window[k] = v` in the realm. -/
def globalSet (g : List (String × JSValue)) (k : String) (v : JSValue) :
    List (String × JSValue) :=
  if (g.find? (fun p => p.1 = k)).isSome then
    g.map (fun p => if p.1 = k then (k, v) else p)
  else g ++ [(k, v)]

/-- `window[k]` in the realm (`undefined` when unset). -/
def globalGet (g : List (String × JSValue)) (k : String) : JSValue :=
  ((g.find? (fun p => p.1 = k)).map Prod.snd).getD JSValue.undef

/-- Abstract guest-module actions: what a snippet evaluated inside the
realm can visibly do (mutate globals, log through the wrapped console,
export a default value, fire the global `error` listener, throw). -/
inductive GuestCmd where
  | setGlobal (name : String) (value : JSValue)
  | consoleLog (value : JSValue)
  | logGlobal (name : String)
  | exportDefaultVal (value : JSValue)
  | exportDefaultGlobal (name : String)
  | fireErrorEvent (message : String)
  | throwJs (message : String)

/-- Realm-local per-call state: `window.executionLogs`,
`window.executionError`, the module default export register, plus the
persistent global scope. -/
structure RealmRun where
  globals : List (String × JSValue)
  logs : List LogEntry
  executionError : Option String
  defaultExport : JSValue

/-- Evaluation of the guest module's actions; `Except.error` is a throw
during module evaluation (the dynamic `import` rejects), carrying the
thrown message and the state at the throw (logs persist, they live on
`window`). -/
def runGuestCmds : List GuestCmd → RealmRun → Except (String × RealmRun) RealmRun
  | [], st => .ok st
  | c :: rest, st =>
    match c with
    | .setGlobal n v => runGuestCmds rest { st with globals := globalSet st.globals n v }
    | .consoleLog v =>
      match consoleContent [v] with
      | some content =>
        runGuestCmds rest { st with logs := st.logs ++ [⟨"log", content, 0⟩] }
      | none => .error (circularMsg, st)
    | .logGlobal n =>
      match consoleContent [globalGet st.globals n] with
      | some content =>
        runGuestCmds rest { st with logs := st.logs ++ [⟨"log", content, 0⟩] }
      | none => .error (circularMsg, st)
    | .exportDefaultVal v => runGuestCmds rest { st with defaultExport := v }
    | .exportDefaultGlobal n =>
      runGuestCmds rest { st with defaultExport := globalGet st.globals n }
    | .fireErrorEvent msg => runGuestCmds rest { st with executionError := some msg }
    | .throwJs msg => .error (msg, st)

/-- The per-call reset at the top of `window.executeCode`. -/
def initialRealmRun (realm : IframeRealm) : RealmRun :=
  { globals := realm.globals, logs := [], executionError := none, defaultExport := .undef }

/-- `window.executeCode(code)` (the iframe `srcdoc` script): reset per-call
state, dynamically import the snippet, and build the response.  On success
the response carries `returnValue` (default export, or the module namespace
when there is none) TOGETHER with whatever `window.executionError` holds;
on a throw it carries the error and no `returnValue`. -/
def iframeExecuteCode (realm : IframeRealm) (prog : List GuestCmd) :
    IframeRealm × ExecutionResult :=
  match runGuestCmds prog (initialRealmRun realm) with
  | .ok st =>
    -- `module.default !== undefined ? module.default : module`
    let executionResult : JSValue :=
      match st.defaultExport with
      | .undef => .obj []   -- the module namespace object
      | v => v
    match (if jsTypeofIsObject executionResult then jsonStringifyPretty 0 executionResult
           else some (jsString executionResult)) with
    | some rv =>
      ({ realm with globals := st.globals },
       { logs := st.logs, returnValue := some rv, error := st.executionError })
    | none =>
      -- serialization of the completion value threw; the outer catch replies
      ({ realm with globals := st.globals },
       { logs := st.logs, returnValue := none, error := some ("TypeError: " ++ circularMsg) })
  | .error (msg, st) =>
    ({ realm with globals := st.globals },
     { logs := st.logs, returnValue := none, error := some msg })

/-- State of a `BrowserExecutorEngine` instance. -/
structure BrowserExecutorEngine where
  iframe : Option IframeRealm
  isInitialized : Bool
  packageImportMap : List (String × String)

/-- A newly constructed engine. -/
def BrowserExecutorEngine.new : BrowserExecutorEngine := ⟨none, false, []⟩

/-- `initialize()`: build the iframe with the current import map baked in;
its global scope starts empty.  Idempotent when already initialized. -/
def BrowserExecutorEngine.initialize (e : BrowserExecutorEngine) : BrowserExecutorEngine :=
  if e.isInitialized then e
  else { e with iframe := some { importMap := e.packageImportMap, globals := [] },
                isInitialized := true }

/-- `isReady()`. -/
def BrowserExecutorEngine.isReady (e : BrowserExecutorEngine) : Bool :=
  e.isInitialized && e.iframe.isSome

/-- `dispose()`: remove the iframe; the package import map is kept. -/
def BrowserExecutorEngine.dispose (e : BrowserExecutorEngine) : BrowserExecutorEngine :=
  { e with iframe := none, isInitialized := false }

/-- `reinitializeIframe()`: tear the realm down and initialize afresh. -/
def BrowserExecutorEngine.reinitializeIframe (e : BrowserExecutorEngine) :
    BrowserExecutorEngine :=
  BrowserExecutorEngine.initialize { e with iframe := none, isInitialized := false }

/-- `execute(code)`: scan imports into the map, reinitialize the iframe when
uninitialized or when the map is non-empty, then run the request/response
round trip (`decode` abstracts the guest semantics of the snippet).  The
not-initialized throw is caught by execute's own catch and returned as an
`ExecutionResult`, never thrown to the caller. -/
def BrowserExecutorEngine.execute (e : BrowserExecutorEngine) (code : String)
    (decode : String → List GuestCmd) : BrowserExecutorEngine × ExecutionResult :=
  let e1 := { e with packageImportMap := parseAndAddImports e.packageImportMap code }
  let e2 := if ¬ e1.isInitialized ∨ 0 < e1.packageImportMap.length
            then e1.reinitializeIframe else e1
  match e2.iframe with
  | some realm =>
    if e2.isInitialized then
      ({ e2 with iframe := some (iframeExecuteCode realm (decode code)).1 },
       (iframeExecuteCode realm (decode code)).2)
    else
      (e2, { logs := [], returnValue := none,
             error := some "Browser execution error: Browser executor is not initialized yet" })
  | none =>
    (e2, { logs := [], returnValue := none,
           error := some "Browser execution error: Browser executor is not initialized yet" })

/-! ## Code cache (src/utils/local-storage.ts)

The persisted state: one localStorage item per package (key
`npmjs-dev-code:<pkg>`) plus a metadata record `{packages, timestamps}`.
`Date.now()` is threaded explicitly as `now`. -/

/-- `MAX_ITEMS`. -/
def MAX_ITEMS : Nat := 100

/-- `STORAGE_PREFIX`. -/
def STORAGE_PREFIX : String := "npmjs-dev-code:"

/-- `getStorageKey`. -/
def getStorageKey (packageName : String) : String := STORAGE_PREFIX ++ packageName

/-- `StorageMetadata {packages, timestamps}`. -/
structure StorageMetadata where
  packages : List String
  timestamps : List (String × Nat)
deriving DecidableEq, Repr

/-- The stored items (without the metadata key) plus the metadata record. -/
structure CodeStorage where
  items : List (String × String)
  metadata : StorageMetadata
deriving DecidableEq, Repr

/-- The storage before anything was saved. -/
def emptyStorage : CodeStorage := ⟨[], ⟨[], []⟩⟩

/-- `metadata.timestamps[pkg] || 0`. -/
def tsGet (md : StorageMetadata) (pkg : String) : Nat :=
  (((md.timestamps.find? (fun p => p.1 = pkg)).map Prod.snd).getD 0)

/-- `metadata.timestamps[pkg] = t` (in-place for an existing key). -/
def tsSet (ts : List (String × Nat)) (pkg : String) (t : Nat) : List (String × Nat) :=
  if (ts.find? (fun p => p.1 = pkg)).isSome then
    ts.map (fun p => if p.1 = pkg then (pkg, t) else p)
  else ts ++ [(pkg, t)]

/-- `delete metadata.timestamps[pkg]`. -/
def tsRemove (ts : List (String × Nat)) (pkg : String) : List (String × Nat) :=
  ts.filter (fun p => ¬ p.1 = pkg)

/-- `localStorage.setItem(key, v)`. -/
def itemSet (items : List (String × String)) (key v : String) : List (String × String) :=
  if (items.find? (fun p => p.1 = key)).isSome then
    items.map (fun p => if p.1 = key then (key, v) else p)
  else items ++ [(key, v)]

/-- `localStorage.getItem(key)`. -/
def itemGet (items : List (String × String)) (key : String) : Option String :=
  (items.find? (fun p => p.1 = key)).map Prod.snd

/-- `localStorage.removeItem(key)`. -/
def itemRemove (items : List (String × String)) (key : String) : List (String × String) :=
  items.filter (fun p => ¬ p.1 = key)

/-- The linear scan of `enforceStorageLimit`: starting from `packages[0]`,
keep the package with the strictly smallest timestamp. -/
def findOldest (md : StorageMetadata) (p0 : String) : String × Nat :=
  md.packages.foldl
    (fun acc pkg => let t := tsGet md pkg; if t < acc.2 then (pkg, t) else acc)
    (p0, tsGet md p0)

/-- `enforceStorageLimit()`: when at or above `MAX_ITEMS`, remove the least
recently used package (item, membership, and timestamp). -/
def enforceStorageLimit (s : CodeStorage) : CodeStorage :=
  if MAX_ITEMS ≤ s.metadata.packages.length then
    match s.metadata.packages with
    | [] => s   -- unreachable: the length is at least 100
    | p0 :: _ =>
      let oldestPackage := (findOldest s.metadata p0).1
      { items := itemRemove s.items (getStorageKey oldestPackage),
        metadata := { packages := s.metadata.packages.filter (fun p => ¬ p = oldestPackage),
                      timestamps := tsRemove s.metadata.timestamps oldestPackage } }
  else s

/-- The write phase of `saveCodeToStorage` (after the limit was enforced):
write the item, append the package if new, refresh its timestamp. -/
def storageWrite (s1 : CodeStorage) (packageName code : String) (now : Nat) :
    CodeStorage :=
  { items := itemSet s1.items (getStorageKey packageName) code,
    metadata :=
      { packages := if packageName ∈ s1.metadata.packages then s1.metadata.packages
                    else s1.metadata.packages ++ [packageName],
        timestamps := tsSet s1.metadata.timestamps packageName now } }

/-- `saveCodeToStorage(packageName, code)` at time `now`: no-op on an empty
key or empty code; otherwise enforce the limit FIRST (regardless of whether
the key is new), then write. -/
def saveCodeToStorage (s : CodeStorage) (packageName code : String) (now : Nat) :
    CodeStorage :=
  if packageName = "" ∨ code = "" then s
  else storageWrite (enforceStorageLimit s) packageName code now

/-- `loadCodeFromStorage(packageName)` at time `now`: the stored code (if
any), refreshing the timestamp as a side effect when truthy code was found. -/
def loadCodeFromStorage (s : CodeStorage) (packageName : String) (now : Nat) :
    Option String × CodeStorage :=
  if packageName = "" then (none, s)
  else
    match itemGet s.items (getStorageKey packageName) with
    | some c =>
      if ¬ c = "" then
        (some c, { s with metadata := { s.metadata with
                     timestamps := tsSet s.metadata.timestamps packageName now } })
      else (some c, s)
    | none => (none, s)

/-- `getStorageCount()`. -/
def getStorageCount (s : CodeStorage) : Nat := s.metadata.packages.length

/-! ## Cache scenario helpers -/

/-- A cache state holding `entries` of (package, lastAccess, code) in
insertion order: the shape every sequence of saves/loads produces. -/
def cacheOf (entries : List (String × Nat × String)) : CodeStorage :=
  { items := entries.map (fun e => (getStorageKey e.1, e.2.2)),
    metadata := { packages := entries.map (fun e => e.1),
                  timestamps := entries.map (fun e => (e.1, e.2.1)) } }

/-- The package names of a `cacheOf` entry list. -/
def entryKeys (entries : List (String × Nat × String)) : List String :=
  entries.map (fun e => e.1)

/-- Save the keys in order with code "x" at times `t0, t0+1, ...`. -/
def saveAll (s : CodeStorage) : List String → Nat → CodeStorage
  | [], _ => s
  | kk :: rest, t0 => saveAll (saveCodeToStorage s kk "x" t0) rest (t0 + 1)

/-- The entries such a save sequence produces. -/
def timedEntries : List String → Nat → List (String × Nat × String)
  | [], _ => []
  | kk :: rest, t0 => (kk, t0, "x") :: timedEntries rest (t0 + 1)

/-- Distinct package names for the concrete cache scenarios. -/
def pkgName (i : Nat) : String := "pkg" ++ toString i

/-- The younger 99 entries of a full cache (times 2..100). -/
def c8Tail : List (String × Nat × String) :=
  (List.range 99).map (fun i => (pkgName (i + 1), i + 2, "x"))

/-- A full (100-entry) cache with strictly increasing access times. -/
def c8Entries : List (String × Nat × String) :=
  (pkgName 0, 1, "x") :: c8Tail

/-! ## Concrete guest scenarios -/

/-- A snippet that completes with a default export while synchronously
firing the realm's global `error` listener
(`window.dispatchEvent(new ErrorEvent(...))` is ordinary guest JS). -/
def demoErrorEventCode : String :=
  "export default 42; window.dispatchEvent(new ErrorEvent('error', \x7b message: 'boom' \x7d))"

/-- Concrete guest semantics for the snippets used in the scenarios:
what each snippet visibly does when evaluated inside the realm. -/
def demoDecode : String → List GuestCmd := fun code =>
  if code = "globalThis.x = 42" then [.setGlobal "x" (.num 42)]
  else if code = "export default globalThis.x" then [.exportDefaultGlobal "x"]
  else if code = demoErrorEventCode then [.exportDefaultVal (.num 42), .fireErrorEvent "boom"]
  else []

/-- A freshly initialized browser engine (empty import map). -/
def c2Engine0 : BrowserExecutorEngine := BrowserExecutorEngine.new.initialize

/-- A freshly initialized interpreter engine. -/
def jsReady : JSExecutorEngine := JSExecutorEngine.new.initialize

/-- The engine after executing a snippet that sets a guest global. -/
def c2AfterFirst : BrowserExecutorEngine :=
  (c2Engine0.execute "globalThis.x = 42" demoDecode).1

/-- Readiness of the interpreter engine determines its two fields. -/
lemma ready_fields (e : JSExecutorEngine) (h : e.isReady = true) :
    e.quickJSModule = some () ∧ e.isInitialized = true := by
  obtain ⟨m, i⟩ := e
  cases m with
  | none => simp [JSExecutorEngine.isReady] at h
  | some u =>
    cases u
    cases i with
    | false => simp [JSExecutorEngine.isReady] at h
    | true => exact ⟨rfl, rfl⟩

/-! ## C1 -/

/-- C1 (counterexample): after `dispose()`, the browser engine's
`execute` does NOT fail with a NotReadyError — it silently re-creates the
iframe and returns a successful `ExecutionResult` (here: the serialized
module namespace, no error). -/
theorem browser_execute_after_dispose_succeeds :
    ((c2Engine0.dispose).execute "1 + 1" demoDecode).2 =
      { logs := [], returnValue := some "{}", error := none } := by
  decide

/-- C1 (amended): after `dispose()` the interpreter engine's `execute`
fails with the NotReadyError rejection and succeeds again after a
subsequent `initialize()`; the browser engine's `execute` never fails with
NotReadyError after `dispose()` — it automatically rebuilds a fresh iframe
realm (with the current import map) and executes the snippet there. -/
theorem execute_after_dispose_behavior :
    (∀ (e : JSExecutorEngine) (code : String) (ev : String → GuestOutcome),
      (e.dispose).execute code ev = .error "Execution engine is not initialized yet") ∧
    (∀ (e : JSExecutorEngine) (code : String) (ev : String → GuestOutcome),
      ∃ r, ( JSExecutorEngine.initialize (e.dispose)).execute code ev = .ok r) ∧
    (∀ (e : BrowserExecutorEngine) (code : String) (dec : String → List GuestCmd),
      ((e.dispose).execute code dec).2 =
        (iframeExecuteCode ⟨parseAndAddImports e.packageImportMap code, []⟩ (dec code)).2) := by
  refine ⟨fun e code ev => ?_, fun e code ev => ?_, fun e code dec => ?_⟩
  · simp [JSExecutorEngine.dispose, JSExecutorEngine.execute]
  · show ∃ r, JSExecutorEngine.execute ⟨some (), true⟩ code ev = .ok r
    rw [JSExecutorEngine.execute, if_neg (by simp)]
    cases ev code with
    | completed v logs =>
      dsimp only
      cases hr : formatReturnValue v with
      | ok rv => exact ⟨_, rfl⟩
      | error m => exact ⟨_, rfl⟩
    | threw errV logs =>
      dsimp only
      cases hr : formatErrorMessage errV with
      | ok msg => exact ⟨_, rfl⟩
      | error m => exact ⟨_, rfl⟩
    | hostThrow m => exact ⟨_, rfl⟩
  · obtain ⟨i, ini, m⟩ := e
    simp [BrowserExecutorEngine.dispose, BrowserExecutorEngine.execute,
      BrowserExecutorEngine.reinitializeIframe, BrowserExecutorEngine.initialize]

/-! ## C2 -/

/-- C2 (counterexample): with an empty import map the browser engine
reuses the same iframe realm across `execute()` calls, so a guest global
set by the first snippet is visible to the second; the second call's
result differs from the result on a freshly initialized engine. -/
theorem browser_realm_state_survives :
    ((c2AfterFirst.execute "export default globalThis.x" demoDecode).2).returnValue =
      some "42" ∧
    ((c2Engine0.execute "export default globalThis.x" demoDecode).2).returnValue =
      some "{}" ∧
    ¬ ((c2AfterFirst.execute "export default globalThis.x" demoDecode).2 =
       (c2Engine0.execute "export default globalThis.x" demoDecode).2) := by
  decide

/-- C2 (amended): the interpreter engine evaluates every call in a fresh
VM, so a ready engine's `execute` result equals that of a freshly
initialized engine; the browser engine rebuilds its iframe realm before
executing whenever it is uninitialized or its import map is non-empty,
but with an empty import map it reuses the existing realm (and hence its
guest-visible globals). -/
theorem engine_isolation_behavior :
    (∀ (e : JSExecutorEngine) (code : String) (ev : String → GuestOutcome),
      e.isReady = true →
      e.execute code ev = jsReady.execute code ev) ∧
    (∀ (e : BrowserExecutorEngine) (realm : IframeRealm) (code : String)
       (dec : String → List GuestCmd),
      e.isInitialized = true → e.iframe = some realm → e.packageImportMap = [] →
      parseAndAddImports [] code = [] →
      e.execute code dec =
        ({ e with iframe := some (iframeExecuteCode realm (dec code)).1 },
         (iframeExecuteCode realm (dec code)).2)) ∧
    (∀ (e : BrowserExecutorEngine) (code : String) (dec : String → List GuestCmd),
      (¬ e.isInitialized = true ∨ ¬ parseAndAddImports e.packageImportMap code = []) →
      (e.execute code dec).2 =
        (iframeExecuteCode ⟨parseAndAddImports e.packageImportMap code, []⟩ (dec code)).2) := by
  refine ⟨fun e code ev h => ?_, fun e realm code dec hi hf hm hp => ?_,
          fun e code dec h => ?_⟩
  · obtain ⟨hm, hi⟩ := ready_fields e h
    obtain ⟨m, i⟩ := e
    cases hm
    cases hi
    rfl
  · obtain ⟨i, ini, m⟩ := e
    cases hm
    cases hi
    cases hf
    simp [BrowserExecutorEngine.execute, hp]
  · obtain ⟨i, ini, m⟩ := e
    rcases h with h | h
    · simp only [Bool.not_eq_true] at h
      cases h
      simp [BrowserExecutorEngine.execute, BrowserExecutorEngine.reinitializeIframe,
        BrowserExecutorEngine.initialize]
    · have hlen : 0 < (parseAndAddImports m code).length := by
        cases hq : parseAndAddImports m code with
        | nil => exact absurd hq h
        | cons a l => simp
      simp [BrowserExecutorEngine.execute, BrowserExecutorEngine.reinitializeIframe,
        BrowserExecutorEngine.initialize, hlen, if_pos (Or.inr hlen)]

/-- C2 (witness): the amended theorem applied at a freshly initialized
interpreter engine and at the freshly initialized browser engine with an
empty snippet. -/
theorem engine_isolation_witness :
    jsReady.execute "" (fun _ => .completed .undef []) =
      jsReady.execute "" (fun _ => .completed .undef []) ∧
    (c2Engine0.execute "" demoDecode).2 = (iframeExecuteCode ⟨[], []⟩ []).2 := by
  constructor
  · exact engine_isolation_behavior.1 jsReady ""
      (fun _ => .completed .undef []) (by decide)
  · have h := engine_isolation_behavior.2.1 c2Engine0 ⟨[], []⟩ "" demoDecode
      rfl rfl rfl (by decide)
    have hdec : demoDecode "" = [] := rfl
    rw [h, hdec]

/-! ## C3 -/

/-- C3 (counterexample): a browser-engine result can carry `returnValue`
and `error` at the same time: the snippet exports a default value and
synchronously fires the global `error` listener, and the success path of
`window.executeCode` reports both. -/
theorem browser_result_both_fields_present :
    ((c2Engine0.execute demoErrorEventCode demoDecode).2).returnValue = some "42" ∧
    ((c2Engine0.execute demoErrorEventCode demoDecode).2).error = some "boom" := by
  decide

/-- C3 (amended): for the interpreter engine `returnValue` and `error` are
mutually exclusive and both-absent is a valid result; for the browser
engine a module throw yields no `returnValue`, but a successful module
evaluation reports `returnValue` together with whatever the global error
listeners captured, so both fields can be present in one result. -/
theorem result_field_exclusivity :
    (∀ (e : JSExecutorEngine) (code : String) (ev : String → GuestOutcome)
       (r : ExecutionResult),
      e.execute code ev = .ok r → ¬ (r.returnValue.isSome = true ∧ r.error.isSome = true)) ∧
    (∀ (e : JSExecutorEngine) (code : String) (ev : String → GuestOutcome)
       (logs : List LogEntry),
      e.isReady = true → ev code = .completed .undef logs →
      e.execute code ev = .ok { logs := logs, returnValue := none, error := none }) ∧
    (∀ (realm : IframeRealm) (prog : List GuestCmd) (msg : String) (st : RealmRun),
      runGuestCmds prog (initialRealmRun realm) = .error (msg, st) →
      ((iframeExecuteCode realm prog).2).returnValue = none) ∧
    (((c2Engine0.execute demoErrorEventCode demoDecode).2).returnValue.isSome = true ∧
     ((c2Engine0.execute demoErrorEventCode demoDecode).2).error.isSome = true) := by
  refine ⟨fun e code ev r hr => ?_, fun e code ev logs h hev => ?_,
          fun realm prog msg st h => ?_, by decide⟩
  · obtain ⟨m, i⟩ := e
    cases m with
    | none => simp [JSExecutorEngine.execute] at hr
    | some u =>
      cases u
      cases i with
      | false => simp [JSExecutorEngine.execute] at hr
      | true =>
        rw [JSExecutorEngine.execute, if_neg (by simp)] at hr
        cases hev : ev code with
        | completed v logs =>
          rw [hev] at hr
          dsimp only at hr
          cases hfr : formatReturnValue v with
          | ok rv =>
            rw [hfr] at hr
            cases hr
            simp
          | error msg =>
            rw [hfr] at hr
            cases hr
            simp
        | threw errV logs =>
          rw [hev] at hr
          dsimp only at hr
          cases hfe : formatErrorMessage errV with
          | ok msg =>
            rw [hfe] at hr
            cases hr
            simp
          | error msg =>
            rw [hfe] at hr
            cases hr
            simp
        | hostThrow msg =>
          rw [hev] at hr
          dsimp only at hr
          cases hr
          simp
  · obtain ⟨hm, hi⟩ := ready_fields e h
    obtain ⟨m, i⟩ := e
    cases hm
    cases hi
    rw [JSExecutorEngine.execute]
    simp [hev, formatReturnValue]
  · simp [iframeExecuteCode, h]

/-- C3 (witness): the amended theorem applied at a ready interpreter
engine with an undefined completion, and at a throwing realm program. -/
theorem result_field_exclusivity_witness :
    ¬ ((⟨[], none, none⟩ : ExecutionResult).returnValue.isSome = true ∧
       (⟨[], none, none⟩ : ExecutionResult).error.isSome = true) ∧
    jsReady.execute "" (fun _ => .completed .undef []) =
      .ok { logs := [], returnValue := none, error := none } ∧
    ((iframeExecuteCode ⟨[], []⟩ [.throwJs "oops"]).2).returnValue = none := by
  refine ⟨?_, ?_, ?_⟩
  · exact result_field_exclusivity.1 jsReady ""
      (fun _ => .completed .undef []) ⟨[], none, none⟩ rfl
  · exact result_field_exclusivity.2.1 jsReady ""
      (fun _ => .completed .undef []) [] rfl rfl
  · exact result_field_exclusivity.2.2.1 ⟨[], []⟩ [.throwJs "oops"] "oops"
      (initialRealmRun ⟨[], []⟩) rfl

/-! ## C4 -/

/-- Auxiliary: no abort happens while the total of fuel and the running
counter stays within the 1024 budget. -/
lemma interruptAbortCount_none : ∀ fuel c, fuel + c ≤ 1024 → interruptAbortCount fuel c = none := by
  intro fuel
  induction fuel with
  | zero => intro c _; rfl
  | succ n ih =>
    intro c h
    rw [interruptAbortCount]
    have hc : ¬ ((interruptHandlerStep c).1 = true) := by
      simp only [interruptHandlerStep, decide_eq_true_eq]
      omega
    rw [if_neg hc]
    show interruptAbortCount n (c + 1) = none
    exact ih (c + 1) (by omega)

/-- Auxiliary: with enough fuel, the run from a counter within the budget
is aborted exactly when the counter reaches 1025. -/
lemma interruptAbortCount_aborts :
    ∀ fuel c, c ≤ 1024 → 1025 ≤ fuel + c → interruptAbortCount fuel c = some 1025 := by
  intro fuel
  induction fuel with
  | zero => intro c hc hf; omega
  | succ n ih =>
    intro c hc hf
    rw [interruptAbortCount]
    by_cases hlast : c = 1024
    · subst hlast
      rw [if_pos (by simp [interruptHandlerStep])]
      rfl
    · have hc' : ¬ ((interruptHandlerStep c).1 = true) := by
        simp only [interruptHandlerStep, decide_eq_true_eq]
        omega
      rw [if_neg hc']
      show interruptAbortCount n (c + 1) = some 1025
      exact ih (c + 1) (by omega) (by omega)

/-- C4: the interrupt handler returns `false` on each of its first 1024
invocations (counter values 0..1023) and `true` on every invocation after
that; a non-terminating guest is therefore aborted at the 1025th handler
invocation (never within the first 1024), and a ready engine turns the
resulting `InternalError: interrupted` throw into an `ExecutionResult`
with a populated `error` instead of hanging. -/
theorem interrupt_budget_behavior :
    (∀ n, n < 1024 → (interruptHandlerStep n).1 = false) ∧
    (∀ n, 1024 ≤ n → (interruptHandlerStep n).1 = true) ∧
    interruptAbortCount 1025 0 = some 1025 ∧
    (∀ fuel, fuel ≤ 1024 → interruptAbortCount fuel 0 = none) ∧
    (∀ (e : JSExecutorEngine) (code : String) (ev : String → GuestOutcome)
       (logs : List LogEntry),
      e.isReady = true → ev code = .threw interruptedErrorValue logs →
      e.execute code ev =
        .ok { logs := logs, returnValue := none,
              error := some "InternalError: interrupted" }) := by
  refine ⟨fun n h => ?_, fun n h => ?_,
          interruptAbortCount_aborts 1025 0 (by omega) (by omega), fun fuel h => ?_,
          fun e code ev logs h hev => ?_⟩
  · simp only [interruptHandlerStep, decide_eq_false_iff_not]
    omega
  · simp only [interruptHandlerStep, decide_eq_true_eq]
    omega
  · exact interruptAbortCount_none fuel 0 (by omega)
  · obtain ⟨hm, hi⟩ := ready_fields e h
    obtain ⟨m, i⟩ := e
    cases hm
    cases hi
    rw [JSExecutorEngine.execute, if_neg (by simp), hev]
    dsimp only
    have hfmt : formatErrorMessage interruptedErrorValue = .ok "InternalError: interrupted" := rfl
    rw [hfmt]
    have hso : stackOverflowTest "InternalError: interrupted" = false := by decide
    simp [hso]

/-- C4 (witness): the theorem applied at concrete counter values, a
concrete fuel, and a ready engine whose evaluation is interrupted. -/
theorem interrupt_budget_witness :
    (interruptHandlerStep 0).1 = false ∧
    (interruptHandlerStep 2000).1 = true ∧
    interruptAbortCount 1000 0 = none ∧
    jsReady.execute "while(true){}"
      (fun _ => .threw interruptedErrorValue []) =
      .ok { logs := [], returnValue := none,
            error := some "InternalError: interrupted" } := by
  refine ⟨interrupt_budget_behavior.1 0 (by decide),
          interrupt_budget_behavior.2.1 2000 (by decide),
          interrupt_budget_behavior.2.2.2.1 1000 (by decide),
          interrupt_budget_behavior.2.2.2.2 jsReady
            "while(true){}" (fun _ => .threw interruptedErrorValue []) [] rfl rfl⟩

/-! ## C9 -/

/-- C9: an `undefined` completion yields no `returnValue` at all, the
guest string "undefined" yields the string `"undefined"`, and the two
results are distinguishable. -/
theorem undefined_completion_distinguishable :
    formatReturnValue .undef = .ok none ∧
    formatReturnValue (.str "undefined") = .ok (some "undefined") ∧
    (∀ (e : JSExecutorEngine) (code : String) (ev : String → GuestOutcome)
       (logs : List LogEntry),
      e.isReady = true → ev code = .completed .undef logs →
      e.execute code ev = .ok { logs := logs, returnValue := none, error := none }) ∧
    (∀ (e : JSExecutorEngine) (code : String) (ev : String → GuestOutcome)
       (logs : List LogEntry),
      e.isReady = true → ev code = .completed (.str "undefined") logs →
      e.execute code ev =
        .ok { logs := logs, returnValue := some "undefined", error := none }) ∧
    (∀ logs : List LogEntry,
      ¬ ({ logs := logs, returnValue := none, error := none } : ExecutionResult) =
        { logs := logs, returnValue := some "undefined", error := none }) := by
  refine ⟨rfl, rfl, fun e code ev logs h hev => ?_, fun e code ev logs h hev => ?_,
          fun logs => by simp⟩
  · obtain ⟨hm, hi⟩ := ready_fields e h
    obtain ⟨m, i⟩ := e
    cases hm
    cases hi
    rw [JSExecutorEngine.execute, if_neg (by simp), hev]
    rfl
  · obtain ⟨hm, hi⟩ := ready_fields e h
    obtain ⟨m, i⟩ := e
    cases hm
    cases hi
    rw [JSExecutorEngine.execute, if_neg (by simp), hev]
    rfl

/-- C9 (witness): the theorem applied at a ready engine for both an
undefined completion (the no-op script) and the guest string "undefined". -/
theorem undefined_completion_witness :
    jsReady.execute ""
      (fun _ => .completed .undef []) =
      .ok { logs := [], returnValue := none, error := none } ∧
    jsReady.execute "'undefined'"
      (fun _ => .completed (.str "undefined") []) =
      .ok { logs := [], returnValue := some "undefined", error := none } :=
  ⟨undefined_completion_distinguishable.2.2.1 jsReady ""
     (fun _ => .completed .undef []) [] rfl rfl,
   undefined_completion_distinguishable.2.2.2.1 jsReady
     "'undefined'" (fun _ => .completed (.str "undefined") []) [] rfl rfl⟩

/-! ## C10 -/

/-- A dumped value of object type always JSON-serializes: `vm.dump`
returns an object only when serialization already succeeded once. -/
lemma vmDump_serializes (v : JSValue) :
    jsTypeofIsObject (vmDump v) = true →
    (jsonStringifyPretty 0 (vmDump v)).isSome = true := by
  rw [vmDump]
  by_cases hv : jsTypeofIsObject v = true
  · rw [if_pos hv]
    cases hj : jsonStringifyPretty 0 v with
    | some s =>
      dsimp only
      intro _
      rw [hj]
      rfl
    | none =>
      dsimp only
      intro hobj
      simp [jsTypeofIsObject] at hobj
  · rw [if_neg hv]
    intro hobj
    exact absurd hobj hv

/-- Serialization succeeds whenever every object-typed argument
serializes. -/
lemma serializeArgs_total (args : List JSValue)
    (h : ∀ a ∈ args, jsTypeofIsObject a = true → (jsonStringifyPretty 0 a).isSome = true) :
    ∃ parts, serializeArgs args = some parts := by
  induction args with
  | nil => exact ⟨[], rfl⟩
  | cons a rest ih =>
    obtain ⟨parts, hp⟩ := ih (fun x hx => h x (List.mem_cons_of_mem a hx))
    rw [serializeArgs]
    cases hobj : jsTypeofIsObject a with
    | false =>
      rw [if_neg (by simp)]
      dsimp only
      rw [hp]
      exact ⟨_, rfl⟩
    | true =>
      have hs := h a (List.mem_cons_self a rest) hobj
      rw [if_pos rfl]
      cases hj : jsonStringifyPretty 0 a with
      | none => rw [hj] at hs; simp at hs
      | some s =>
        dsimp only
        rw [hp]
        exact ⟨_, rfl⟩

/-- C10: the captured console methods never fail: each argument is first
converted with `vm.dump` (best-effort: an in-VM serialization failure such
as a cyclic structure yields the single-line string "[object Object]"),
non-string values are serialized as pretty-printed JSON, and a `LogEntry`
with a creation timestamp is always appended — in particular a cyclic
argument logs the best-effort single-line form instead of crashing the
capture. -/
theorem console_capture_total :
    (∀ (type : String) (args : List JSValue) (now : Nat) (logs : List LogEntry),
      ∃ content, consoleMethodBody type args now logs =
        some (logs ++ [⟨type, content, now⟩])) ∧
    consoleMethodBody "log" [JSValue.cyclic] 5 [] =
      some [⟨"log", "[object Object]", 5⟩] := by
  constructor
  · intro type args now logs
    obtain ⟨parts, hp⟩ := serializeArgs_total (args.map vmDump) (by
      intro a ha hobj
      rcases List.mem_map.mp ha with ⟨v, hv, rfl⟩
      exact vmDump_serializes v hobj)
    exact ⟨_, by rw [consoleMethodBody, consoleContent, hp]; rfl⟩
  · rfl

/-! ## C6 -/

/-- Elements produced by the dedup pass are never in the already-seen set. -/
lemma dedupFirstSeen_not_seen :
    ∀ (l seen : List String) (x : String), x ∈ dedupFirstSeen l seen → ¬ x ∈ seen := by
  intro l
  induction l with
  | nil => intro seen x hx; cases hx
  | cons s rest ih =>
    intro seen x hx
    rw [dedupFirstSeen] at hx
    by_cases hs : s ∈ seen
    · rw [if_pos hs] at hx
      exact ih seen x hx
    · rw [if_neg hs] at hx
      rcases List.mem_cons.mp hx with rfl | hx2
      · exact hs
      · intro hxseen
        exact ih (s :: seen) x hx2 (List.mem_cons_of_mem s hxseen)

/-- The dedup pass always yields a duplicate-free list. -/
lemma dedupFirstSeen_nodup : ∀ (l seen : List String), (dedupFirstSeen l seen).Nodup := by
  intro l
  induction l with
  | nil => intro seen; exact List.nodup_nil
  | cons s rest ih =>
    intro seen
    rw [dedupFirstSeen]
    by_cases hs : s ∈ seen
    · rw [if_pos hs]; exact ih seen
    · rw [if_neg hs]
      refine List.nodup_cons.mpr ⟨?_, ih (s :: seen)⟩
      intro hmem
      exact dedupFirstSeen_not_seen rest (s :: seen) s hmem (List.mem_cons_self s seen)

/-- C6: the import scanner returns the matched specifiers deduplicated in
first-seen order (in particular, always a duplicate-free list) and is a
total function; the claim's two concrete inputs behave as stated: a
well-formed import and export yield their specifiers in order, and a
malformed import (unterminated brace group) contributes nothing. -/
theorem parseModuleDeps_behavior :
    (∀ code, (parseModuleDeps code).Nodup) ∧
    parseModuleDeps "import a from 'x'; export * from 'y'" = ["x", "y"] ∧
    parseModuleDeps "import \x7ba from 'z'" = [] :=
  ⟨fun _ => dedupFirstSeen_nodup _ [], by decide, by decide⟩

/-! ## C5 -/

/-- `isSome` of an ordered alternative. -/
lemma orElse_isSome_iff {α : Type} (a b : Option α) :
    (a <|> b).isSome = true ↔ a.isSome = true ∨ b.isSome = true := by
  cases a <;> simp

/-- A greedy class star succeeds iff some split into a class-prefix and a
remainder lets the continuation succeed. -/
lemma greedyCls_isSome_iff {α : Type} (p : Char → Bool) :
    ∀ (l : List Char) (k : List Char → Option α),
      (greedyCls p l k).isSome = true ↔
        ∃ w rest, l = w ++ rest ∧ (∀ c ∈ w, p c = true) ∧ (k rest).isSome = true := by
  intro l
  induction l with
  | nil =>
    intro k
    rw [greedyCls]
    constructor
    · intro h
      exact ⟨[], [], rfl, (by intro c hc; cases hc), h⟩
    · rintro ⟨w, rest, hw, _, hk⟩
      obtain ⟨rfl, rfl⟩ := List.append_eq_nil.mp hw.symm
      exact hk
  | cons c cs ih =>
    intro k
    rw [greedyCls]
    by_cases hc : p c = true
    · rw [if_pos hc, orElse_isSome_iff]
      constructor
      · rintro (h | h)
        · obtain ⟨w, rest, hw, hall, hk⟩ := (ih k).mp h
          refine ⟨c :: w, rest, by rw [hw]; rfl, ?_, hk⟩
          intro d hd
          rcases List.mem_cons.mp hd with rfl | hd2
          · exact hc
          · exact hall d hd2
        · exact ⟨[], c :: cs, rfl, (by intro d hd; cases hd), h⟩
      · rintro ⟨w, rest, hw, hall, hk⟩
        cases w with
        | nil =>
          right
          rw [List.nil_append] at hw
          rw [hw]
          exact hk
        | cons w0 ws =>
          left
          rw [List.cons_append] at hw
          injection hw with h1 h2
          exact (ih k).mpr ⟨ws, rest, h2, fun d hd => hall d (List.mem_cons_of_mem _ hd), hk⟩
    · rw [if_neg hc]
      constructor
      · intro h
        exact ⟨[], c :: cs, rfl, (by intro d hd; cases hd), h⟩
      · rintro ⟨w, rest, hw, hall, hk⟩
        cases w with
        | nil =>
          rw [List.nil_append] at hw
          rw [hw]
          exact hk
        | cons w0 ws =>
          rw [List.cons_append] at hw
          injection hw with h1 h2
          subst h1
          exact absurd (hall c (List.mem_cons_self _ _)) hc

/-- A greedy class plus succeeds iff some split with a nonempty class-prefix
lets the continuation succeed. -/
lemma plusCls_isSome_iff {α : Type} (p : Char → Bool) (l : List Char)
    (k : List Char → Option α) :
    (plusCls p l k).isSome = true ↔
      ∃ w rest, l = w ++ rest ∧ ¬ w = [] ∧ (∀ c ∈ w, p c = true) ∧ (k rest).isSome = true := by
  cases l with
  | nil =>
    rw [plusCls]
    simp only [Option.isSome_none, Bool.false_eq_true, false_iff]
    rintro ⟨w, rest, hw, hne, -, -⟩
    obtain ⟨rfl, -⟩ := List.append_eq_nil.mp hw.symm
    exact hne rfl
  | cons c cs =>
    rw [plusCls]
    by_cases hc : p c = true
    · rw [if_pos hc, greedyCls_isSome_iff]
      constructor
      · rintro ⟨w, rest, hw, hall, hk⟩
        refine ⟨c :: w, rest, by rw [hw]; rfl, by simp, ?_, hk⟩
        intro d hd
        rcases List.mem_cons.mp hd with rfl | hd2
        · exact hc
        · exact hall d hd2
      · rintro ⟨w, rest, hw, hne, hall, hk⟩
        cases w with
        | nil => exact absurd rfl hne
        | cons w0 ws =>
          rw [List.cons_append] at hw
          injection hw with h1 h2
          exact ⟨ws, rest, h2, fun d hd => hall d (List.mem_cons_of_mem _ hd), hk⟩
    · rw [if_neg hc]
      simp only [Option.isSome_none, Bool.false_eq_true, false_iff]
      rintro ⟨w, rest, hw, hne, hall, -⟩
      cases w with
      | nil => exact hne rfl
      | cons w0 ws =>
        rw [List.cons_append] at hw
        injection hw with h1 h2
        subst h1
        exact absurd (hall c (List.mem_cons_self _ _)) hc

/-- A literal character token succeeds iff the input starts with it and the
continuation succeeds on the remainder. -/
lemma charTok_isSome_iff {α : Type} (c : Char) (l : List Char)
    (k : List Char → Option α) :
    (charTok c l k).isSome = true ↔ ∃ rest, l = c :: rest ∧ (k rest).isSome = true := by
  cases l with
  | nil => simp [charTok]
  | cons d rest =>
    rw [charTok]
    by_cases hd : d = c
    · subst hd
      rw [if_pos rfl]
      constructor
      · intro h
        exact ⟨rest, rfl, h⟩
      · rintro ⟨r2, hr, hk⟩
        injection hr with h1 h2
        rw [h2]
        exact hk
    · rw [if_neg hd]
      simp only [Option.isSome_none, Bool.false_eq_true, false_iff]
      rintro ⟨r2, hr, -⟩
      injection hr with h1 h2
      exact hd h1

/-- An optional literal character: either consumed or skipped. -/
lemma optChar_isSome_iff {α : Type} (c : Char) (l : List Char)
    (k : List Char → Option α) :
    (optChar c l k).isSome = true ↔
      (∃ rest, l = c :: rest ∧ (k rest).isSome = true) ∨ (k l).isSome = true := by
  rw [optChar, orElse_isSome_iff, charTok_isSome_iff]

/-- Spec reading of "a specifier beginning with `/` followed by `name`":
a slash, then a nonempty run of word characters (then anything). -/
def slashNameShape (s : String) : Prop :=
  ∃ w rest, s.data = '/' :: (w ++ rest) ∧ ¬ w = [] ∧ ∀ c ∈ w, wordHyphen c = true

/-- Spec reading of "a specifier beginning with `/` followed by
`@scope/name`". -/
def slashScopeShape (s : String) : Prop :=
  ∃ w1 w2 rest, s.data = '/' :: '@' :: (w1 ++ '/' :: (w2 ++ rest)) ∧
    ¬ w1 = [] ∧ (∀ c ∈ w1, wordHyphen c = true) ∧ ¬ w2 = [] ∧ ∀ c ∈ w2, wordHyphen c = true

/-- The regex prefix test succeeds exactly on the two spec shapes. -/
lemma slashPackageTest_iff (s : String) :
    slashPackageTest s = true ↔ slashNameShape s ∨ slashScopeShape s := by
  rw [slashPackageTest, slashNameShape, slashScopeShape]
  cases hd : s.data with
  | nil =>
    rw [slashPackageCore]
    simp only [Option.isSome_none, Bool.false_eq_true, false_iff]
    rintro (⟨w, rest, hw, -, -⟩ | ⟨w1, w2, rest, hw, -⟩) <;> cases hw
  | cons c0 t =>
    rw [slashPackageCore]
    by_cases hc0 : c0 = '/'
    · subst hc0
      rw [if_pos rfl]
      simp only [orElse_isSome_iff, optChar_isSome_iff, plusCls_isSome_iff,
        charTok_isSome_iff, Option.isSome_some, and_true, List.cons.injEq, true_and]
      constructor
      · rintro ((⟨u, rfl, w1, r1, rfl, hne1, hall1, r2, rfl, w2, r3, rfl, hne2, hall2⟩ |
                 ⟨w1, r1, rfl, hne1, hall1, r2, rfl, w2, r3, rfl, hne2, hall2⟩) |
                ⟨w, rest, rfl, hne, hall⟩)
        · exact Or.inr ⟨w1, w2, r3, rfl, hne1, hall1, hne2, hall2⟩
        · exact Or.inl ⟨w1, '/' :: (w2 ++ r3), rfl, hne1, hall1⟩
        · exact Or.inl ⟨w, rest, rfl, hne, hall⟩
      · rintro (⟨w, rest, ht, hne, hall⟩ | ⟨w1, w2, rest, ht, hne1, hall1, hne2, hall2⟩)
        · exact Or.inr ⟨w, rest, ht, hne, hall⟩
        · exact Or.inl (Or.inl ⟨w1 ++ '/' :: (w2 ++ rest), ht, w1, '/' :: (w2 ++ rest),
            rfl, hne1, hall1, w2 ++ rest, rfl, w2, rest, rfl, hne2, hall2⟩)
    · rw [if_neg hc0]
      simp only [Option.isSome_none, Bool.false_eq_true, false_iff]
      rintro (⟨w, rest, hw, -, -⟩ | ⟨w1, w2, rest, hw, -⟩) <;>
        (injection hw with h1 h2; exact hc0 h1)

/-- No string whose data starts with a slash has an `http`/`https` prefix. -/
lemma slash_not_http (s : String) (t : List Char) (h : s.data = '/' :: t) :
    ¬ (jsStartsWith s "http://" = true ∨ jsStartsWith s "https://" = true) := by
  rintro (hp | hp)
  · rw [jsStartsWith, h] at hp
    have hf : ("http://".data).isPrefixOf ('/' :: t) = false := rfl
    rw [hf] at hp
    exact absurd hp (by simp)
  · rw [jsStartsWith, h] at hp
    have hf : ("https://".data).isPrefixOf ('/' :: t) = false := rfl
    rw [hf] at hp
    exact absurd hp (by simp)

/-- C5: the specifier resolver is total and pure; absolute http(s) URLs
pass through unchanged, a specifier beginning with `/name` or
`/@scope/name` is prefixed with the bare CDN root, every other specifier
(including the empty one) is prefixed with the CDN root plus a slash. -/
theorem resolveModuleUrl_spec :
    (∀ s : String,
      (jsStartsWith s "http://" = true ∨ jsStartsWith s "https://" = true) →
      resolveModuleUrl s = s) ∧
    (∀ s : String, slashNameShape s ∨ slashScopeShape s →
      resolveModuleUrl s = "https://esm.sh" ++ s) ∧
    (∀ s : String,
      ¬ (jsStartsWith s "http://" = true ∨ jsStartsWith s "https://" = true) →
      ¬ (slashNameShape s ∨ slashScopeShape s) →
      resolveModuleUrl s = "https://esm.sh/" ++ s) ∧
    resolveModuleUrl "" = "https://esm.sh/" := by
  refine ⟨fun s h => ?_, fun s h => ?_, fun s h1 h2 => ?_, rfl⟩
  · rw [resolveModuleUrl, if_pos h]
  · have hslash : ∃ t, s.data = '/' :: t := by
      rcases h with ⟨w, rest, hw, -, -⟩ | ⟨w1, w2, rest, hw, -⟩
      · exact ⟨_, hw⟩
      · exact ⟨_, hw⟩
    obtain ⟨t, ht⟩ := hslash
    rw [resolveModuleUrl, if_neg (slash_not_http s t ht),
      if_pos ((slashPackageTest_iff s).mpr h)]
  · rw [resolveModuleUrl, if_neg h1, if_neg]
    intro hq
    exact h2 ((slashPackageTest_iff s).mp hq)

/-- C5 (witness): the theorem applied at the spec's four example inputs. -/
theorem resolveModuleUrl_witness :
    resolveModuleUrl "https://x/y.js" = "https://x/y.js" ∧
    resolveModuleUrl "/@scope/pkg" = "https://esm.sh" ++ "/@scope/pkg" ∧
    resolveModuleUrl "react" = "https://esm.sh/" ++ "react" ∧
    resolveModuleUrl "" = "https://esm.sh/" := by
  refine ⟨resolveModuleUrl_spec.1 _ (Or.inr (by decide)),
          resolveModuleUrl_spec.2.1 _ (Or.inr ?_),
          resolveModuleUrl_spec.2.2.1 _ (by decide) ?_,
          resolveModuleUrl_spec.2.2.2⟩
  · exact ⟨['s', 'c', 'o', 'p', 'e'], ['p', 'k', 'g'], [], by decide, by decide,
      by decide, by decide, by decide⟩
  · rintro (⟨w, rest, hw, -, -⟩ | ⟨w1, w2, rest, hw, -⟩) <;>
      · have h2 : List.head? ("react".data) = some '/' := by rw [hw]; rfl
        exact absurd h2 (by decide)

/-! ## C7 / C8: cache lemmas -/

/-- The prefixed storage key is injective. -/
lemma getStorageKey_inj {a b : String} (h : getStorageKey a = getStorageKey b) : a = b := by
  have hd := congrArg String.data h
  rw [getStorageKey, getStorageKey, String.data_append, String.data_append] at hd
  exact String.ext (List.append_cancel_left hd)

/-- Below the limit, `enforceStorageLimit` is the identity. -/
lemma enforce_below (entries : List (String × Nat × String))
    (h : entries.length < 100) :
    enforceStorageLimit (cacheOf entries) = cacheOf entries := by
  rw [enforceStorageLimit, if_neg]
  simp only [cacheOf, List.length_map, MAX_ITEMS]
  omega

/-- Writing a fresh key appends a new entry. -/
lemma storageWrite_new (entries : List (String × Nat × String)) (kk c : String) (t : Nat)
    (hk : ¬ kk ∈ entryKeys entries) :
    storageWrite (cacheOf entries) kk c t = cacheOf (entries ++ [(kk, t, c)]) := by
  have hkeys : ∀ e ∈ entries, ¬ e.1 = kk := by
    intro e he heq
    exact hk (List.mem_map.mpr ⟨e, he, heq⟩)
  have hitems : ((cacheOf entries).items.find? (fun p => p.1 = getStorageKey kk)) = none := by
    rw [List.find?_eq_none]
    intro x hx
    rcases List.mem_map.mp hx with ⟨e, he, rfl⟩
    simp only [decide_eq_true_eq]
    intro heq
    exact hkeys e he (getStorageKey_inj heq)
  have hts : ((cacheOf entries).metadata.timestamps.find? (fun p => p.1 = kk)) = none := by
    rw [List.find?_eq_none]
    intro x hx
    rcases List.mem_map.mp hx with ⟨e, he, rfl⟩
    simp only [decide_eq_true_eq]
    exact hkeys e he
  have hpkg : ¬ kk ∈ (cacheOf entries).metadata.packages := hk
  rw [storageWrite, itemSet, hitems, tsSet, hts]
  simp only [Option.isSome_none, Bool.false_eq_true, if_false, if_neg hpkg]
  rw [cacheOf, cacheOf]
  simp [List.map_append]

/-- Writing an existing key updates that entry's recency and code in place:
the package list is unchanged and every other entry is untouched. -/
lemma storageWrite_existing (entries : List (String × Nat × String)) (kk c : String)
    (t : Nat) (hk : kk ∈ entryKeys entries) :
    storageWrite (cacheOf entries) kk c t =
      cacheOf (entries.map (fun e => if e.1 = kk then (kk, t, c) else e)) := by
  obtain ⟨e0, he0, he0k⟩ := List.mem_map.mp hk
  have hitems : ((cacheOf entries).items.find? (fun p => p.1 = getStorageKey kk)).isSome = true := by
    rw [List.find?_isSome]
    exact ⟨(getStorageKey e0.1, e0.2.2), List.mem_map.mpr ⟨e0, he0, rfl⟩,
      by simp [he0k]⟩
  have hts : ((cacheOf entries).metadata.timestamps.find? (fun p => p.1 = kk)).isSome = true := by
    rw [List.find?_isSome]
    exact ⟨(e0.1, e0.2.1), List.mem_map.mpr ⟨e0, he0, rfl⟩, by simp [he0k]⟩
  rw [storageWrite, itemSet, if_pos hitems, tsSet, if_pos hts]
  have hpkg : kk ∈ (cacheOf entries).metadata.packages := hk
  rw [if_pos hpkg]
  rw [cacheOf, cacheOf]
  simp only [List.map_map]
  congr 1
  · -- items
    apply List.map_congr_left
    intro e _
    by_cases he : e.1 = kk
    · simp [Function.comp, he]
    · have hgs : ¬ getStorageKey e.1 = getStorageKey kk := fun hx => he (getStorageKey_inj hx)
      simp [Function.comp, he, hgs]
  · congr 1
    · -- packages
      apply List.map_congr_left
      intro e _
      by_cases he : e.1 = kk
      · simp [Function.comp, he]
      · simp [Function.comp, he]
    · -- timestamps
      apply List.map_congr_left
      intro e _
      by_cases he : e.1 = kk
      · simp [Function.comp, he]
      · simp [Function.comp, he]

/-- Looking up a present entry's timestamp in a duplicate-free cache. -/
lemma tsGet_cacheOf : ∀ (entries : List (String × Nat × String)),
    (entryKeys entries).Nodup →
    ∀ e ∈ entries, tsGet (cacheOf entries).metadata e.1 = e.2.1 := by
  intro entries
  induction entries with
  | nil => intro _ e he; cases he
  | cons e0 rest ih =>
    intro hnd e he
    have h0 : ¬ e0.1 ∈ entryKeys rest := (List.nodup_cons.mp hnd).1
    have hnd' : (entryKeys rest).Nodup := (List.nodup_cons.mp hnd).2
    rcases List.mem_cons.mp he with rfl | hrest
    · rw [tsGet, show (cacheOf (e :: rest)).metadata.timestamps =
          (e.1, e.2.1) :: (cacheOf rest).metadata.timestamps from rfl,
        List.find?_cons_of_pos _ (by simp)]
      rfl
    · have hne : ¬ e0.1 = e.1 := by
        intro h
        exact h0 (h ▸ List.mem_map.mpr ⟨e, hrest, rfl⟩)
      have hrec := ih hnd' e hrest
      rw [tsGet] at hrec
      rw [tsGet, show (cacheOf (e0 :: rest)).metadata.timestamps =
          (e0.1, e0.2.1) :: (cacheOf rest).metadata.timestamps from rfl,
        List.find?_cons_of_neg _ (by simp; exact fun h => hne h)]
      exact hrec

/-- The LRU scan never moves off an accumulator that is already minimal. -/
lemma lruFold_stays (md : StorageMetadata) :
    ∀ (l : List String) (acc : String × Nat),
      (∀ p ∈ l, acc.2 ≤ tsGet md p) →
      List.foldl (fun acc pkg => let t := tsGet md pkg; if t < acc.2 then (pkg, t) else acc)
        acc l = acc := by
  intro l
  induction l with
  | nil => intro acc _; rfl
  | cons p rest ih =>
    intro acc h
    rw [List.foldl_cons]
    dsimp only
    have hp : ¬ tsGet md p < acc.2 := by
      have := h p (List.mem_cons_self _ _)
      omega
    rw [if_neg hp]
    exact ih acc (fun q hq => h q (List.mem_cons_of_mem _ hq))

/-- With the first entry least recently used, the scan selects it. -/
lemma findOldest_cacheOf_head (e0 : String × Nat × String)
    (rest : List (String × Nat × String))
    (hnd : (entryKeys (e0 :: rest)).Nodup)
    (hmin : ∀ e ∈ rest, e0.2.1 ≤ e.2.1) :
    findOldest (cacheOf (e0 :: rest)).metadata e0.1 = (e0.1, e0.2.1) := by
  have ht0 : tsGet (cacheOf (e0 :: rest)).metadata e0.1 = e0.2.1 :=
    tsGet_cacheOf _ hnd e0 (List.mem_cons_self _ _)
  rw [findOldest, ht0, show (cacheOf (e0 :: rest)).metadata.packages =
      e0.1 :: entryKeys rest from rfl]
  apply lruFold_stays
  intro p hp
  rcases List.mem_cons.mp hp with rfl | hp2
  · rw [ht0]
  · rcases List.mem_map.mp hp2 with ⟨e, he, rfl⟩
    rw [tsGet_cacheOf _ hnd e (List.mem_cons_of_mem _ he)]
    exact hmin e he

/-- With the second entry strictly older than a refreshed first entry and
minimal among the rest, the scan selects the second entry. -/
lemma findOldest_cacheOf_second (e0 e1 : String × Nat × String)
    (rest : List (String × Nat × String))
    (hnd : (entryKeys (e0 :: e1 :: rest)).Nodup)
    (h01 : e1.2.1 < e0.2.1)
    (hmin : ∀ e ∈ rest, e1.2.1 ≤ e.2.1) :
    findOldest (cacheOf (e0 :: e1 :: rest)).metadata e0.1 = (e1.1, e1.2.1) := by
  have ht0 : tsGet (cacheOf (e0 :: e1 :: rest)).metadata e0.1 = e0.2.1 :=
    tsGet_cacheOf _ hnd e0 (List.mem_cons_self _ _)
  have ht1 : tsGet (cacheOf (e0 :: e1 :: rest)).metadata e1.1 = e1.2.1 :=
    tsGet_cacheOf _ hnd e1 (List.mem_cons_of_mem _ (List.mem_cons_self _ _))
  rw [findOldest, ht0, show (cacheOf (e0 :: e1 :: rest)).metadata.packages =
      e0.1 :: e1.1 :: entryKeys rest from rfl, List.foldl_cons]
  dsimp only
  rw [ht0, if_neg (lt_irrefl _), List.foldl_cons]
  dsimp only
  rw [ht1, if_pos h01]
  apply lruFold_stays
  intro p hp
  rcases List.mem_map.mp hp with ⟨e, he, rfl⟩
  rw [tsGet_cacheOf _ hnd e (List.mem_cons_of_mem _ (List.mem_cons_of_mem _ he))]
  exact hmin e he

/-- Filtering out one keyed pair whose key occurs nowhere else. -/
lemma filter_keyed_remove {β : Type} (key : String) (x : String × β) (l : List (String × β))
    (hx : x.1 = key) (hl : ∀ y ∈ l, ¬ y.1 = key) :
    (x :: l).filter (fun p => ¬ p.1 = key) = l := by
  rw [List.filter_cons_of_neg (by simp [hx]), List.filter_eq_self.mpr]
  intro y hy
  simp [hl y hy]

/-- Filtering out one string that occurs nowhere else. -/
lemma filter_key_remove (key x : String) (l : List String)
    (hx : x = key) (hl : ∀ y ∈ l, ¬ y = key) :
    (x :: l).filter (fun p => ¬ p = key) = l := by
  rw [List.filter_cons_of_neg (by simp [hx]), List.filter_eq_self.mpr]
  intro y hy
  simp [hl y hy]

/-- At capacity, with the first entry least recently used, eviction removes
exactly the first entry. -/
lemma enforce_at_capacity_head (e0 : String × Nat × String)
    (rest : List (String × Nat × String))
    (hnd : (entryKeys (e0 :: rest)).Nodup)
    (hmin : ∀ e ∈ rest, e0.2.1 ≤ e.2.1)
    (hlen : 100 ≤ (e0 :: rest).length) :
    enforceStorageLimit (cacheOf (e0 :: rest)) = cacheOf rest := by
  have h0 : ¬ e0.1 ∈ entryKeys rest := (List.nodup_cons.mp hnd).1
  have hkeys : ∀ e ∈ rest, ¬ e.1 = e0.1 := by
    intro e he heq
    exact h0 (heq ▸ List.mem_map.mpr ⟨e, he, rfl⟩)
  rw [enforceStorageLimit,
    if_pos (by simpa [cacheOf, MAX_ITEMS, List.length_map] using hlen),
    show (cacheOf (e0 :: rest)).metadata.packages = e0.1 :: entryKeys rest from rfl]
  dsimp only
  rw [findOldest_cacheOf_head e0 rest hnd hmin]
  have hitems : itemRemove (cacheOf (e0 :: rest)).items (getStorageKey e0.1) =
      (cacheOf rest).items := by
    rw [itemRemove, show (cacheOf (e0 :: rest)).items =
        (getStorageKey e0.1, e0.2.2) :: (cacheOf rest).items from rfl]
    apply filter_keyed_remove _ _ _ rfl
    intro y hy
    rcases List.mem_map.mp hy with ⟨e, he, rfl⟩
    exact fun heq => hkeys e he (getStorageKey_inj heq)
  have hts : tsRemove (cacheOf (e0 :: rest)).metadata.timestamps e0.1 =
      (cacheOf rest).metadata.timestamps := by
    rw [tsRemove, show (cacheOf (e0 :: rest)).metadata.timestamps =
        (e0.1, e0.2.1) :: (cacheOf rest).metadata.timestamps from rfl]
    apply filter_keyed_remove _ _ _ rfl
    intro y hy
    rcases List.mem_map.mp hy with ⟨e, he, rfl⟩
    exact hkeys e he
  have hpk : (e0.1 :: entryKeys rest).filter (fun p => ¬ p = e0.1) = entryKeys rest := by
    apply filter_key_remove _ _ _ rfl
    intro y hy
    exact fun heq => h0 (heq ▸ hy)
  rw [hitems, hts, hpk]
  rfl

/-- At capacity, with the second entry strictly older than the (refreshed)
first and minimal among the rest, eviction removes exactly the second. -/
lemma enforce_at_capacity_second (e0 e1 : String × Nat × String)
    (rest : List (String × Nat × String))
    (hnd : (entryKeys (e0 :: e1 :: rest)).Nodup)
    (h01 : e1.2.1 < e0.2.1)
    (hmin : ∀ e ∈ rest, e1.2.1 ≤ e.2.1)
    (hlen : 100 ≤ (e0 :: e1 :: rest).length) :
    enforceStorageLimit (cacheOf (e0 :: e1 :: rest)) = cacheOf (e0 :: rest) := by
  have h0 : ¬ e0.1 ∈ entryKeys (e1 :: rest) := (List.nodup_cons.mp hnd).1
  have h1 : ¬ e1.1 ∈ entryKeys rest := (List.nodup_cons.mp (List.nodup_cons.mp hnd).2).1
  have h01k : ¬ e0.1 = e1.1 := by
    intro heq
    exact h0 (heq ▸ List.mem_map.mpr ⟨e1, List.mem_cons_self _ _, rfl⟩)
  have hkeys : ∀ e ∈ rest, ¬ e.1 = e1.1 := by
    intro e he heq
    exact h1 (heq ▸ List.mem_map.mpr ⟨e, he, rfl⟩)
  rw [enforceStorageLimit,
    if_pos (by simpa [cacheOf, MAX_ITEMS, List.length_map] using hlen),
    show (cacheOf (e0 :: e1 :: rest)).metadata.packages =
      e0.1 :: entryKeys (e1 :: rest) from rfl]
  dsimp only
  rw [findOldest_cacheOf_second e0 e1 rest hnd h01 hmin]
  have hitems : itemRemove (cacheOf (e0 :: e1 :: rest)).items (getStorageKey e1.1) =
      (cacheOf (e0 :: rest)).items := by
    rw [itemRemove, show (cacheOf (e0 :: e1 :: rest)).items =
        (getStorageKey e0.1, e0.2.2) :: (getStorageKey e1.1, e1.2.2) ::
          (cacheOf rest).items from rfl,
      List.filter_cons_of_pos (by simp; exact fun heq => h01k (getStorageKey_inj heq))]
    rw [show ((cacheOf (e0 :: rest)).items : List (String × String)) =
        (getStorageKey e0.1, e0.2.2) :: (cacheOf rest).items from rfl]
    congr 1
    apply filter_keyed_remove _ _ _ rfl
    intro y hy
    rcases List.mem_map.mp hy with ⟨e, he, rfl⟩
    exact fun heq => hkeys e he (getStorageKey_inj heq)
  have hts : tsRemove (cacheOf (e0 :: e1 :: rest)).metadata.timestamps e1.1 =
      (cacheOf (e0 :: rest)).metadata.timestamps := by
    rw [tsRemove, show (cacheOf (e0 :: e1 :: rest)).metadata.timestamps =
        (e0.1, e0.2.1) :: (e1.1, e1.2.1) :: (cacheOf rest).metadata.timestamps from rfl,
      List.filter_cons_of_pos (by simp [h01k])]
    rw [show ((cacheOf (e0 :: rest)).metadata.timestamps : List (String × Nat)) =
        (e0.1, e0.2.1) :: (cacheOf rest).metadata.timestamps from rfl]
    congr 1
    apply filter_keyed_remove _ _ _ rfl
    intro y hy
    rcases List.mem_map.mp hy with ⟨e, he, rfl⟩
    exact hkeys e he
  have hpk : (e0.1 :: entryKeys (e1 :: rest)).filter (fun p => ¬ p = e1.1) =
      e0.1 :: entryKeys rest := by
    rw [show entryKeys (e1 :: rest) = e1.1 :: entryKeys rest from rfl,
      List.filter_cons_of_pos (by simp [h01k])]
    congr 1
    apply filter_key_remove _ _ _ rfl
    intro y hy
    exact fun heq => h1 (heq ▸ hy)
  rw [hitems, hts, hpk]
  rfl

/-- In-place record update is the identity when the key is absent. -/
lemma map_upd_id {β : Type} (key : String) (v : β) (l : List (String × β))
    (hl : ∀ y ∈ l, ¬ y.1 = key) :
    l.map (fun p => if p.1 = key then (key, v) else p) = l := by
  have h : l.map (fun p => if p.1 = key then (key, v) else p) = l.map id :=
    List.map_congr_left (fun y hy => by simp [hl y hy])
  rw [h, List.map_id]

/-- Loading the first entry's code refreshes exactly its timestamp. -/
lemma load_head (kk c : String) (t now : Nat)
    (rest : List (String × Nat × String))
    (hc : ¬ c = "") (hk : ¬ kk ∈ entryKeys rest) (hne : ¬ kk = "") :
    loadCodeFromStorage (cacheOf ((kk, t, c) :: rest)) kk now =
      (some c, cacheOf ((kk, now, c) :: rest)) := by
  have hkeys : ∀ e ∈ rest, ¬ e.1 = kk := by
    intro e he heq
    exact hk (heq ▸ List.mem_map.mpr ⟨e, he, rfl⟩)
  have hget : itemGet (cacheOf ((kk, t, c) :: rest)).items (getStorageKey kk) = some c := by
    rw [itemGet, show (cacheOf ((kk, t, c) :: rest)).items =
        (getStorageKey kk, c) :: (cacheOf rest).items from rfl,
      List.find?_cons_of_pos _ (by simp)]
    rfl
  rw [loadCodeFromStorage, if_neg hne, hget]
  dsimp only
  rw [if_pos hc]
  have htsfind : ((cacheOf ((kk, t, c) :: rest)).metadata.timestamps.find?
      (fun p => p.1 = kk)).isSome = true := by
    rw [show (cacheOf ((kk, t, c) :: rest)).metadata.timestamps =
        (kk, t) :: (cacheOf rest).metadata.timestamps from rfl,
      List.find?_cons_of_pos _ (by simp)]
    rfl
  have hts : tsSet (cacheOf ((kk, t, c) :: rest)).metadata.timestamps kk now =
      (cacheOf ((kk, now, c) :: rest)).metadata.timestamps := by
    rw [tsSet, if_pos htsfind, show (cacheOf ((kk, t, c) :: rest)).metadata.timestamps =
        (kk, t) :: (cacheOf rest).metadata.timestamps from rfl]
    rw [show (cacheOf ((kk, now, c) :: rest)).metadata.timestamps =
        (kk, now) :: (cacheOf rest).metadata.timestamps from rfl]
    rw [List.map_cons, if_pos rfl]
    congr 1
    apply map_upd_id
    intro y hy
    rcases List.mem_map.mp hy with ⟨e, he, rfl⟩
    exact hkeys e he
  rw [hts]
  rfl

/-- The timed entries of a key list, length. -/
lemma timedEntries_length : ∀ (keys : List String) (t0 : Nat),
    (timedEntries keys t0).length = keys.length := by
  intro keys
  induction keys with
  | nil => intro t0; rfl
  | cons kk rest ih => intro t0; rw [timedEntries, List.length_cons, ih, List.length_cons]

/-- The timed entries of a key list, keys. -/
lemma entryKeys_timedEntries : ∀ (keys : List String) (t0 : Nat),
    entryKeys (timedEntries keys t0) = keys := by
  intro keys
  induction keys with
  | nil => intro t0; rfl
  | cons kk rest ih =>
    intro t0
    rw [timedEntries, show entryKeys ((kk, t0, "x") :: timedEntries rest (t0 + 1)) =
      kk :: entryKeys (timedEntries rest (t0 + 1)) from rfl, ih]

/-- The timed entries of a key list, time lower bound. -/
lemma timedEntries_t0_le : ∀ (keys : List String) (t0 : Nat),
    ∀ e ∈ timedEntries keys t0, t0 ≤ e.2.1 := by
  intro keys
  induction keys with
  | nil => intro t0 e he; cases he
  | cons kk rest ih =>
    intro t0 e he
    rcases List.mem_cons.mp he with rfl | he2
    · exact Nat.le_refl t0
    · exact Nat.le_trans (Nat.le_succ t0) (ih (t0 + 1) e he2)

/-- `entryKeys` distributes over append. -/
lemma entryKeys_append (a b : List (String × Nat × String)) :
    entryKeys (a ++ b) = entryKeys a ++ entryKeys b := by
  rw [entryKeys, entryKeys, entryKeys, List.map_append]

/-- Saving a concatenation is saving both halves in sequence. -/
lemma saveAll_append (a b : List String) : ∀ (s : CodeStorage) (t0 : Nat),
    saveAll s (a ++ b) t0 = saveAll (saveAll s a t0) b (t0 + a.length) := by
  induction a with
  | nil => intro s t0; rw [List.nil_append, saveAll, List.length_nil, Nat.add_zero]
  | cons kk rest ih =>
    intro s t0
    rw [List.cons_append, saveAll, saveAll, ih, List.length_cons,
      show t0 + (rest.length + 1) = t0 + 1 + rest.length from by omega]

/-- While the limit is never reached, a save sequence of fresh nonempty
keys appends timed entries one by one. -/
lemma saveAll_cacheOf : ∀ (keys : List String) (entries : List (String × Nat × String))
    (t0 : Nat),
    entries.length + keys.length ≤ 100 →
    (entryKeys entries ++ keys).Nodup →
    (∀ kk ∈ keys, ¬ kk = "") →
    saveAll (cacheOf entries) keys t0 = cacheOf (entries ++ timedEntries keys t0) := by
  intro keys
  induction keys with
  | nil => intro entries t0 _ _ _; rw [saveAll, timedEntries, List.append_nil]
  | cons kk rest ih =>
    intro entries t0 hlen hnd hne
    rw [List.length_cons] at hlen
    have hkk : ¬ kk = "" := hne kk (List.mem_cons_self _ _)
    have hdisj := (List.nodup_append.mp hnd).2.2
    have hnotin : ¬ kk ∈ entryKeys entries :=
      fun hin => hdisj hin (List.mem_cons_self _ _)
    rw [saveAll, saveCodeToStorage, if_neg (by simp [hkk]),
      enforce_below entries (by omega), storageWrite_new entries kk "x" t0 hnotin,
      ih (entries ++ [(kk, t0, "x")]) (t0 + 1) ?hl ?hn ?he]
    · rw [timedEntries, List.append_assoc]
      rfl
    case hl => rw [List.length_append]; simp; omega
    case hn =>
      rw [entryKeys_append, show entryKeys [(kk, t0, "x")] = [kk] from rfl,
        List.append_assoc]
      exact hnd
    case he => exact fun q hq => hne q (List.mem_cons_of_mem _ hq)

/-- The state after saving 101 distinct nonempty keys at times 1..101. -/
lemma saveAll_101 (k0 : String) (mid : List String) (klast : String)
    (hlen : mid.length = 99) (hnd : (k0 :: mid ++ [klast]).Nodup)
    (hne : ∀ kk ∈ k0 :: mid ++ [klast], ¬ kk = "") :
    saveAll emptyStorage (k0 :: mid ++ [klast]) 1 =
      cacheOf (timedEntries mid 2 ++ [(klast, 101, "x")]) := by
  have hnd100 : (k0 :: mid).Nodup :=
    List.Nodup.of_append_left (hnd : ((k0 :: mid) ++ [klast]).Nodup)
  have hdisj := (List.nodup_append.mp (hnd : ((k0 :: mid) ++ [klast]).Nodup)).2.2
  have hklast : ¬ klast ∈ k0 :: mid :=
    fun hin => hdisj hin (List.mem_cons_self _ _)
  rw [show (k0 :: mid ++ [klast] : List String) = (k0 :: mid) ++ [klast] from rfl,
    saveAll_append]
  have h2 := saveAll_cacheOf (k0 :: mid) [] 1
    (by simp [hlen]) (by rw [show entryKeys [] = [] from rfl, List.nil_append]; exact hnd100)
    (fun q hq => hne q (List.mem_append_left _ hq))
  rw [show saveAll emptyStorage (k0 :: mid) 1 = saveAll (cacheOf []) (k0 :: mid) 1 from rfl,
    h2, List.nil_append, show (1 + (k0 :: mid).length) = mid.length + 2 from by
      rw [List.length_cons]; omega, hlen]
  rw [saveAll, saveAll, saveCodeToStorage,
    if_neg (by simp; exact hne klast (List.mem_append_right _ (List.mem_cons_self _ _)))]
  rw [show timedEntries (k0 :: mid) 1 = (k0, 1, "x") :: timedEntries mid 2 from rfl]
  rw [enforce_at_capacity_head (k0, 1, "x") (timedEntries mid 2)
    (by rw [show entryKeys ((k0, 1, "x") :: timedEntries mid 2) =
          k0 :: entryKeys (timedEntries mid 2) from rfl, entryKeys_timedEntries]
        exact hnd100)
    (by intro e he
        have h2 := timedEntries_t0_le mid 2 e he
        show (1 : Nat) ≤ e.2.1
        omega)
    (by rw [List.length_cons, timedEntries_length, hlen])]
  rw [storageWrite_new (timedEntries mid 2) klast "x" (99 + 2)
    (by rw [entryKeys_timedEntries]
        exact fun hin => hklast (List.mem_cons_of_mem _ hin))]

/-- C7: starting from the empty cache, after saving 101 distinct nonempty
keys in order the count is 100, the evicted key is exactly the
first-inserted never-reaccessed one, and all other keys survive in order;
a key re-accessed via a load before insertion 101 is protected, and the
oldest untouched key (the second-inserted) is evicted instead. -/
theorem cache_lru_eviction :
    (∀ (k0 : String) (mid : List String) (klast : String),
      mid.length = 99 → (k0 :: mid ++ [klast]).Nodup →
      (∀ kk ∈ k0 :: mid ++ [klast], ¬ kk = "") →
      getStorageCount (saveAll emptyStorage (k0 :: mid ++ [klast]) 1) = 100 ∧
      (saveAll emptyStorage (k0 :: mid ++ [klast]) 1).metadata.packages =
        mid ++ [klast] ∧
      ¬ k0 ∈ (saveAll emptyStorage (k0 :: mid ++ [klast]) 1).metadata.packages) ∧
    (∀ (k0 k1 : String) (mid : List String) (klast : String),
      mid.length = 98 → (k0 :: k1 :: mid ++ [klast]).Nodup →
      (∀ kk ∈ k0 :: k1 :: mid ++ [klast], ¬ kk = "") →
      (saveCodeToStorage
          ((loadCodeFromStorage (saveAll emptyStorage (k0 :: k1 :: mid) 1) k0 200).2)
          klast "x" 300).metadata.packages = k0 :: (mid ++ [klast]) ∧
      getStorageCount (saveCodeToStorage
          ((loadCodeFromStorage (saveAll emptyStorage (k0 :: k1 :: mid) 1) k0 200).2)
          klast "x" 300) = 100 ∧
      ¬ k1 ∈ (saveCodeToStorage
          ((loadCodeFromStorage (saveAll emptyStorage (k0 :: k1 :: mid) 1) k0 200).2)
          klast "x" 300).metadata.packages) := by
  constructor
  · intro k0 mid klast hlen hnd hne
    have heq := saveAll_101 k0 mid klast hlen hnd hne
    have hk0 : ¬ k0 ∈ mid ++ [klast] := (List.nodup_cons.mp hnd).1
    refine ⟨?_, ?_, ?_⟩
    · rw [heq, getStorageCount, show (cacheOf (timedEntries mid 2 ++ [(klast, 101, "x")])).metadata.packages =
        entryKeys (timedEntries mid 2 ++ [(klast, 101, "x")]) from rfl,
        entryKeys_append, entryKeys_timedEntries, List.length_append, hlen]
      rfl
    · rw [heq, show (cacheOf (timedEntries mid 2 ++ [(klast, 101, "x")])).metadata.packages =
        entryKeys (timedEntries mid 2 ++ [(klast, 101, "x")]) from rfl,
        entryKeys_append, entryKeys_timedEntries]
      rfl
    · rw [heq, show (cacheOf (timedEntries mid 2 ++ [(klast, 101, "x")])).metadata.packages =
        entryKeys (timedEntries mid 2 ++ [(klast, 101, "x")]) from rfl,
        entryKeys_append, entryKeys_timedEntries,
        show entryKeys [(klast, 101, "x")] = [klast] from rfl]
      exact hk0
  · intro k0 k1 mid klast hlen hnd hne
    have hnd100 : (k0 :: k1 :: mid).Nodup :=
      List.Nodup.of_append_left (hnd : ((k0 :: k1 :: mid) ++ [klast]).Nodup)
    have hdisj := (List.nodup_append.mp (hnd : ((k0 :: k1 :: mid) ++ [klast]).Nodup)).2.2
    have hklast : ¬ klast ∈ k0 :: k1 :: mid :=
      fun hin => hdisj hin (List.mem_cons_self _ _)
    have hk0tail : ¬ k0 ∈ k1 :: mid := (List.nodup_cons.mp hnd100).1
    have hk1tail : ¬ k1 ∈ mid ++ [klast] :=
      (List.nodup_cons.mp (List.nodup_cons.mp hnd).2).1
    have h100 := saveAll_cacheOf (k0 :: k1 :: mid) [] 1
      (by simp [hlen])
      (by rw [show entryKeys [] = [] from rfl, List.nil_append]; exact hnd100)
      (fun q hq => hne q (by
        rcases List.mem_cons.mp hq with rfl | hq2
        · exact List.mem_cons_self _ _
        · rcases List.mem_cons.mp hq2 with rfl | hq3
          · exact List.mem_cons_of_mem _ (List.mem_cons_self _ _)
          · exact List.mem_cons_of_mem _ (List.mem_cons_of_mem _ (List.mem_append_left _ hq3))))
    have hload := load_head k0 "x" 1 200 ((k1, 2, "x") :: timedEntries mid 3)
      (by simp)
      (by rw [show entryKeys ((k1, 2, "x") :: timedEntries mid 3) =
            k1 :: entryKeys (timedEntries mid 3) from rfl, entryKeys_timedEntries]
          exact hk0tail)
      (hne k0 (List.mem_cons_self _ _))
    have hstate : (loadCodeFromStorage (saveAll emptyStorage (k0 :: k1 :: mid) 1) k0 200).2 =
        cacheOf ((k0, 200, "x") :: (k1, 2, "x") :: timedEntries mid 3) := by
      rw [show saveAll emptyStorage (k0 :: k1 :: mid) 1 =
          saveAll (cacheOf []) (k0 :: k1 :: mid) 1 from rfl, h100, List.nil_append,
        show timedEntries (k0 :: k1 :: mid) 1 =
          (k0, 1, "x") :: (k1, 2, "x") :: timedEntries mid 3 from rfl, hload]
    have hfinal : saveCodeToStorage
        ((loadCodeFromStorage (saveAll emptyStorage (k0 :: k1 :: mid) 1) k0 200).2)
        klast "x" 300 =
        cacheOf (((k0, 200, "x") :: timedEntries mid 3) ++ [(klast, 300, "x")]) := by
      rw [hstate, saveCodeToStorage,
        if_neg (by simp; exact hne klast (List.mem_cons_of_mem _ (List.mem_cons_of_mem _
          (List.mem_append_right _ (List.mem_cons_self _ _)))))]
      rw [enforce_at_capacity_second (k0, 200, "x") (k1, 2, "x") (timedEntries mid 3)
        (by rw [show entryKeys ((k0, 200, "x") :: (k1, 2, "x") :: timedEntries mid 3) =
              k0 :: k1 :: entryKeys (timedEntries mid 3) from rfl, entryKeys_timedEntries]
            exact hnd100)
        (by show (2 : Nat) < 200; omega)
        (by intro e he
            have h3 := timedEntries_t0_le mid 3 e he
            show (2 : Nat) ≤ e.2.1
            omega)
        (by simp [timedEntries_length, hlen])]
      rw [storageWrite_new ((k0, 200, "x") :: timedEntries mid 3) klast "x" 300
        (by rw [show entryKeys ((k0, 200, "x") :: timedEntries mid 3) =
              k0 :: entryKeys (timedEntries mid 3) from rfl, entryKeys_timedEntries]
            intro hin
            rcases List.mem_cons.mp hin with rfl | hin2
            · exact hklast (List.mem_cons_self _ _)
            · exact hklast (List.mem_cons_of_mem _ (List.mem_cons_of_mem _ hin2)))]
    have hpkgs : (saveCodeToStorage
        ((loadCodeFromStorage (saveAll emptyStorage (k0 :: k1 :: mid) 1) k0 200).2)
        klast "x" 300).metadata.packages = k0 :: (mid ++ [klast]) := by
      rw [hfinal, show (cacheOf (((k0, 200, "x") :: timedEntries mid 3) ++
          [(klast, 300, "x")])).metadata.packages =
          entryKeys (((k0, 200, "x") :: timedEntries mid 3) ++ [(klast, 300, "x")]) from rfl,
        entryKeys_append, show entryKeys ((k0, 200, "x") :: timedEntries mid 3) =
          k0 :: entryKeys (timedEntries mid 3) from rfl, entryKeys_timedEntries]
      rfl
    refine ⟨hpkgs, ?_, ?_⟩
    · rw [getStorageCount, hpkgs, List.length_cons, List.length_append, hlen]
      rfl
    · rw [hpkgs]
      intro hin
      rcases List.mem_cons.mp hin with heq | hin2
      · exact hk0tail (heq ▸ List.mem_cons_self _ _)
      · exact hk1tail hin2

/-- C7 (witness): the theorem applied at 101 concrete distinct keys
saved in order into the empty cache. -/
theorem cache_lru_eviction_witness :
    getStorageCount (saveAll emptyStorage
      (pkgName 0 :: (List.range 99).map (fun i => pkgName (i + 1)) ++ [pkgName 100]) 1) = 100 ∧
    ¬ pkgName 0 ∈ (saveAll emptyStorage
      (pkgName 0 :: (List.range 99).map (fun i => pkgName (i + 1)) ++ [pkgName 100])
        1).metadata.packages := by
  have h := cache_lru_eviction.1 (pkgName 0)
    ((List.range 99).map (fun i => pkgName (i + 1))) (pkgName 100)
    (by simp) (by decide) (by decide)
  exact ⟨h.1, h.2.2⟩

/-! ## C8 -/

/-- C8 (counterexample): at capacity, saving to an EXISTING key still
evicts the least-recently-used other entry first: the count drops from
100 to 99 and the oldest key's entry is removed, contradicting "count
unchanged, no other entry removed, eviction only when the key is new". -/
theorem cache_save_existing_evicts :
    getStorageCount (cacheOf c8Entries) = 100 ∧
    pkgName 99 ∈ (cacheOf c8Entries).metadata.packages ∧
    getStorageCount (saveCodeToStorage (cacheOf c8Entries) (pkgName 99) "y" 500) = 99 ∧
    ¬ pkgName 0 ∈
      (saveCodeToStorage (cacheOf c8Entries) (pkgName 99) "y" 500).metadata.packages := by
  have hnd : (entryKeys c8Entries).Nodup := by decide
  have hmin : ∀ e ∈ c8Tail, (pkgName 0, 1, "x").2.1 ≤ e.2.1 := by decide
  have hmem : pkgName 99 ∈ entryKeys c8Tail := by decide
  have hsave : saveCodeToStorage (cacheOf c8Entries) (pkgName 99) "y" 500 =
      cacheOf (c8Tail.map (fun e =>
        if e.1 = pkgName 99 then (pkgName 99, 500, "y") else e)) := by
    rw [show c8Entries = (pkgName 0, 1, "x") :: c8Tail from rfl, saveCodeToStorage,
      if_neg (by decide),
      enforce_at_capacity_head _ _ hnd hmin (by decide),
      storageWrite_existing _ _ _ _ hmem]
  refine ⟨by decide, by decide, ?_, ?_⟩
  · rw [hsave]
    simp only [getStorageCount, cacheOf, List.length_map]
    decide
  · rw [hsave]
    decide

/-- C8 (amended): `set` is a no-op on an empty key or empty value; below
capacity, writing an existing key updates that entry's code and recency in
place, leaves the count unchanged and removes no other entry; at capacity
(100 keys) the least-recently-used entry is evicted first even when the
written key already exists. -/
theorem cache_save_existing_behavior :
    (∀ (s : CodeStorage) (c : String) (t : Nat), saveCodeToStorage s "" c t = s) ∧
    (∀ (s : CodeStorage) (kk : String) (t : Nat), saveCodeToStorage s kk "" t = s) ∧
    (∀ (entries : List (String × Nat × String)) (kk c : String) (t : Nat),
      entries.length < 100 → kk ∈ entryKeys entries → ¬ kk = "" → ¬ c = "" →
      saveCodeToStorage (cacheOf entries) kk c t =
        cacheOf (entries.map (fun e => if e.1 = kk then (kk, t, c) else e)) ∧
      getStorageCount (saveCodeToStorage (cacheOf entries) kk c t) =
        getStorageCount (cacheOf entries)) ∧
    (∀ (e0 : String × Nat × String) (rest : List (String × Nat × String))
       (kk c : String) (t : Nat),
      (entryKeys (e0 :: rest)).Nodup → 100 ≤ (e0 :: rest).length →
      (∀ e ∈ rest, e0.2.1 ≤ e.2.1) → kk ∈ entryKeys rest → ¬ kk = "" → ¬ c = "" →
      saveCodeToStorage (cacheOf (e0 :: rest)) kk c t =
        cacheOf (rest.map (fun e => if e.1 = kk then (kk, t, c) else e))) := by
  refine ⟨fun s c t => ?_, fun s kk t => ?_,
          fun entries kk c t hlen hmem hkk hc => ?_,
          fun e0 rest kk c t hnd hlen hmin hmem hkk hc => ?_⟩
  · rw [saveCodeToStorage, if_pos (Or.inl rfl)]
  · rw [saveCodeToStorage, if_pos (Or.inr rfl)]
  · have hupd : saveCodeToStorage (cacheOf entries) kk c t =
        cacheOf (entries.map (fun e => if e.1 = kk then (kk, t, c) else e)) := by
      rw [saveCodeToStorage, if_neg (by simp [hkk, hc]), enforce_below entries hlen,
        storageWrite_existing entries kk c t hmem]
    refine ⟨hupd, ?_⟩
    rw [hupd, getStorageCount, getStorageCount]
    simp only [cacheOf, List.length_map]
  · rw [saveCodeToStorage, if_neg (by simp [hkk, hc]),
      enforce_at_capacity_head e0 rest hnd hmin hlen,
      storageWrite_existing rest kk c t hmem]

/-- C8 (witness): the amended theorem applied at an empty key, at a
one-entry cache holding the written key, and at a full cache written with
its most recent key. -/
theorem cache_save_existing_witness :
    saveCodeToStorage emptyStorage "" "c" 1 = emptyStorage ∧
    saveCodeToStorage (cacheOf [("a", 1, "x")]) "a" "y" 5 =
      cacheOf [("a", 5, "y")] ∧
    saveCodeToStorage (cacheOf ((pkgName 0, 1, "x") :: c8Tail)) (pkgName 99) "y" 500 =
      cacheOf (c8Tail.map (fun e =>
        if e.1 = pkgName 99 then (pkgName 99, 500, "y") else e)) := by
  refine ⟨cache_save_existing_behavior.1 emptyStorage "c" 1, ?_, ?_⟩
  · have h := (cache_save_existing_behavior.2.2.1 [("a", 1, "x")] "a" "y" 5
      (by decide) (by decide) (by decide) (by decide)).1
    rw [h]
    rfl
  · exact cache_save_existing_behavior.2.2.2 (pkgName 0, 1, "x") c8Tail (pkgName 99)
      "y" 500 (by decide) (by decide) (by decide) (by decide) (by decide) (by decide)

end NpmjsDev
